import Mathlib

/-!
Verification development for the switchboard execution engine and store
(crates/switchboard-core). Shallow embedding of:

* `src/models.rs` — the data model (Host, Command, Workflow, execution types).
* `src/store.rs` — the `CommandStore` state and its CRUD / log / export-import
  operations, modelled as pure transformers on an explicit state record.
* `src/executor.rs` — the `SshExecutor::execute` worker, modelled as a trace
  generator: the sequential parts become straight-line event lists, and the
  local path's three concurrent threads (main loop plus the two pipe-reader
  threads) become a small-step machine driven by an explicit schedule.
* `src/orchestration.rs` — the shell-command-line construction, modelled over
  lists of characters so that quoting/escaping is exact.

Uuids and timestamps are modelled as `Nat`; file contents reached through the
gzip codec are modelled at their decoded value (the flate2 encoder/decoder pair
is an external library assumed to round-trip).
-/

namespace Switchboard

/-- Uuids are opaque identities; modelled as naturals. -/
abbrev Uuid := Nat

/-- models.rs `EnvVar`. -/
structure EnvVar where
  key : String
  value : String
  ask_user : Bool
deriving DecidableEq

/-- models.rs `AuthMethod`. -/
inductive AuthMethod where
  | password (s : String)
  | keyFile (s : String)
  | agent
deriving DecidableEq

/-- models.rs `Host`. -/
structure Host where
  id : Uuid
  name : String
  hostname : String
  port : Nat
  username : String
  auth : AuthMethod
deriving DecidableEq

/-- models.rs `Command`.  `source_path` carries `#[serde(skip)]` in the source;
timestamps are modelled as naturals. -/
structure Command where
  id : Uuid
  name : String
  description : Option String
  script : String
  working_directory : Option String
  env_vars : List EnvVar
  host : Option String
  user : Option String
  target_hosts : List Uuid
  created_at : Nat
  background : Bool
  source_path : Option String
deriving DecidableEq

/-- models.rs `Workflow`. -/
structure Workflow where
  id : Uuid
  name : String
  description : Option String
  commands : List Uuid
  env_vars : List EnvVar
  created_at : Nat
deriving DecidableEq

/-- models.rs `ExecutionStatus`. -/
inductive ExecutionStatus where
  | pending
  | running
  | completed
  | failed
deriving DecidableEq

/-- The execution-result record as the store uses it (store.rs reads
`result.id`, `result.command_id`, `result.log_file`; the test constructor in
store_test.rs populates exactly these fields). -/
structure ExecutionResult where
  id : Uuid
  command_id : Uuid
  host_id : Uuid
  started_at : Nat
  finished_at : Option Nat
  exit_code : Option Int
  duration_ms : Option Nat
  status : ExecutionStatus
  log_file : String
deriving DecidableEq

/-- models.rs `ExecutionUpdate`: the streamed lifecycle events. -/
inductive ExecutionUpdate where
  | started (id : Uuid)
  | stdout (s : String)
  | stderr (s : String)
  | exit (code : Int)
deriving DecidableEq

/-! ## Store state (store.rs `StoreData` and the executions directory)

`CommandStore` guards a `StoreData` record behind a lock and mirrors every
mutation to disk; the embedding keeps the in-memory record, plus the
`executions/` directory as a name→content map (contents at their
gzip-decoded value). -/

/-- store.rs `StoreData`. -/
structure StoreData where
  commands : List Command
  workflows : List Workflow
  hosts : List Host
  executions : List ExecutionResult
deriving DecidableEq

/-- The store: in-memory data plus the `executions/` log-blob directory. -/
structure Store where
  data : StoreData
  logs : List (String × String)
deriving DecidableEq

/-- store.rs `add_command`: retain all commands with a different id, then push. -/
def add_command (d : StoreData) (cmd : Command) : StoreData :=
  { d with commands := d.commands.filter (fun c => c.id != cmd.id) ++ [cmd] }

/-- store.rs `get_command`. -/
def get_command (d : StoreData) (id : Uuid) : Option Command :=
  d.commands.find? (fun c => c.id == id)

/-- store.rs `remove_command`: unconditional retain of the other ids. -/
def remove_command (d : StoreData) (id : Uuid) : StoreData :=
  { d with commands := d.commands.filter (fun c => c.id != id) }

/-- store.rs `add_host`. -/
def add_host (d : StoreData) (host : Host) : StoreData :=
  { d with hosts := d.hosts.filter (fun h => h.id != host.id) ++ [host] }

/-- store.rs `get_host`. -/
def get_host (d : StoreData) (id : Uuid) : Option Host :=
  d.hosts.find? (fun h => h.id == id)

/-- store.rs `add_workflow`. -/
def add_workflow (d : StoreData) (w : Workflow) : StoreData :=
  { d with workflows := d.workflows.filter (fun x => x.id != w.id) ++ [w] }

/-- store.rs `get_workflow`. -/
def get_workflow (d : StoreData) (id : Uuid) : Option Workflow :=
  d.workflows.find? (fun w => w.id == id)

/-- store.rs `remove_workflow`. -/
def remove_workflow (d : StoreData) (id : Uuid) : StoreData :=
  { d with workflows := d.workflows.filter (fun w => w.id != id) }

/-- store.rs `is_command_in_workflow`. -/
def is_command_in_workflow (d : StoreData) (cmd_id : Uuid) : Bool :=
  d.workflows.any (fun w => w.commands.contains cmd_id)

/-- The caller-side deletion gate (switchboard-ui `app.rs`): removal is skipped
while `is_command_in_workflow` reports a reference. -/
def gated_remove_command (d : StoreData) (id : Uuid) : StoreData :=
  if is_command_in_workflow d id then d else remove_command d id

/-- Writing a blob in the `executions/` directory (`File::create` truncates any
previous file of the same name). -/
def writeLog (logs : List (String × String)) (name content : String) :
    List (String × String) :=
  logs.filter (fun p => p.1 != name) ++ [(name, content)]

/-- store.rs `add_execution`: write the compressed log blob named by
`result.log_file`, then upsert the metadata record. -/
def add_execution (s : Store) (r : ExecutionResult) (output : String) : Store :=
  { data := { s.data with
      executions := s.data.executions.filter (fun e => e.id != r.id) ++ [r] },
    logs := writeLog s.logs r.log_file output }

/-- store.rs `get_execution_history`. -/
def get_execution_history (s : Store) (cmd_id : Uuid) : List ExecutionResult :=
  s.data.executions.filter (fun e => e.command_id == cmd_id)

/-- store.rs `get_execution_log`: look up the metadata record by execution id,
then read (and decode) the blob named by its `log_file`. -/
def get_execution_log (s : Store) (exec_id : Uuid) : Option String :=
  (s.data.executions.find? (fun e => e.id == exec_id)).bind
    (fun e => s.logs.lookup e.log_file)

/-! ## Generic upsert lemmas -/

theorem beq_false_of_ne {κ : Type} [BEq κ] [LawfulBEq κ] {a b : κ} (h : ¬ a = b) :
    (a == b) = false := by
  cases hb : a == b with
  | true => exact absurd (eq_of_beq hb) h
  | false => rfl

theorem filter_ne_find_none {α κ : Type} [BEq κ] [LawfulBEq κ]
    (f : α → κ) (i : κ) (xs : List α) :
    (xs.filter (fun x => f x != i)).find? (fun x => f x == i) = none := by
  induction xs with
  | nil => rfl
  | cons x xs ih =>
    by_cases h : f x = i
    · have hfil : (f x != i) = false := by simp [bne, h]
      rw [List.filter_cons, hfil]
      simp [ih]
    · have hb : (f x == i) = false := beq_false_of_ne h
      have hfil : (f x != i) = true := by simp [bne, hb]
      rw [List.filter_cons, hfil]
      simp only [if_true]
      rw [List.find?_cons, hb]
      exact ih

theorem upsert_find {α κ : Type} [BEq κ] [LawfulBEq κ]
    (f : α → κ) (i : κ) (a : α) (h : f a = i) (xs : List α) :
    ((xs.filter (fun x => f x != i)) ++ [a]).find? (fun x => f x == i) = some a := by
  induction xs with
  | nil =>
    have hb : (f a == i) = true := by simp [h]
    simp [List.find?_cons, hb]
  | cons x xs ih =>
    by_cases hx : f x = i
    · have hfil : (f x != i) = false := by simp [bne, hx]
      rw [List.filter_cons, hfil]
      simpa using ih
    · have hb : (f x == i) = false := beq_false_of_ne hx
      have hfil : (f x != i) = true := by simp [bne, hb]
      rw [List.filter_cons, hfil]
      simp only [if_true, List.cons_append]
      rw [List.find?_cons, hb]
      exact ih

theorem upsert_filter {α κ : Type} [BEq κ] [LawfulBEq κ]
    (f : α → κ) (i : κ) (a : α) (h : f a = i) (xs : List α) :
    ((xs.filter (fun x => f x != i)) ++ [a]).filter (fun x => f x == i) = [a] := by
  induction xs with
  | nil =>
    have hb : (f a == i) = true := by simp [h]
    simp [List.filter_cons, hb]
  | cons x xs ih =>
    by_cases hx : f x = i
    · have hfil : (f x != i) = false := by simp [bne, hx]
      rw [List.filter_cons, hfil]
      simpa using ih
    · have hb : (f x == i) = false := beq_false_of_ne hx
      have hfil : (f x != i) = true := by simp [bne, hb]
      rw [List.filter_cons, hfil]
      simp only [if_true, List.cons_append]
      rw [List.filter_cons, hb]
      simp only [Bool.false_eq_true, if_false]
      exact ih

theorem upsert_lookup {β : Type} (k : String) (v : β) (xs : List (String × β)) :
    ((xs.filter (fun p => p.1 != k)) ++ [(k, v)]).lookup k = some v := by
  induction xs with
  | nil => simp [List.lookup]
  | cons p xs ih =>
    by_cases hp : p.1 = k
    · have hfil : (p.1 != k) = false := by simp [bne, hp]
      rw [List.filter_cons, hfil]
      simpa using ih
    · have hb : (p.1 == k) = false := beq_false_of_ne hp
      have hkb : (k == p.1) = false := beq_false_of_ne (fun he => hp he.symm)
      have hfil : (p.1 != k) = true := by simp [bne, hb]
      rw [List.filter_cons, hfil]
      simp only [if_true, List.cons_append]
      cases p with
      | mk a b =>
        rw [List.lookup]
        simp only at hkb
        rw [hkb]
        exact ih

/-! ## Store fixtures -/

def cmdA : Command :=
  { id := 1, name := "build", description := none, script := "echo hello",
    working_directory := none, env_vars := [], host := none, user := none,
    target_hosts := [], created_at := 0, background := false, source_path := none }

def cmdA2 : Command := { cmdA with name := "build v2", script := "echo hello2" }

def hostA : Host :=
  { id := 4, name := "dev box", hostname := "dev.example.com", port := 22,
    username := "alice", auth := AuthMethod.agent }

def hostA2 : Host := { hostA with hostname := "dev2.example.com" }

def wfA : Workflow :=
  { id := 7, name := "deploy", description := none, commands := [1],
    env_vars := [], created_at := 0 }

def wfA2 : Workflow := { wfA with name := "deploy v2" }

def emptyData : StoreData := { commands := [], workflows := [], hosts := [], executions := [] }

/-- A store whose single command (id 1) is referenced by its single workflow (id 7). -/
def dRef : StoreData := { commands := [cmdA], workflows := [wfA], hosts := [], executions := [] }

/-! ## C6 — upsert semantics of the add operations -/

/-- C6: adding twice under one identity leaves exactly one stored record, the
one from the latest call, for commands, hosts and workflows alike. -/
theorem add_twice_upserts (d : StoreData) (c1 c2 : Command) (hc : c1.id = c2.id)
    (h1 h2 : Host) (hh : h1.id = h2.id) (w1 w2 : Workflow) (hw : w1.id = w2.id) :
    (add_command (add_command d c1) c2).commands.filter (fun c => c.id == c2.id) = [c2]
  ∧ get_command (add_command (add_command d c1) c2) c2.id = some c2
  ∧ (add_host (add_host d h1) h2).hosts.filter (fun h => h.id == h2.id) = [h2]
  ∧ get_host (add_host (add_host d h1) h2) h2.id = some h2
  ∧ (add_workflow (add_workflow d w1) w2).workflows.filter (fun w => w.id == w2.id) = [w2]
  ∧ get_workflow (add_workflow (add_workflow d w1) w2) w2.id = some w2 := by
  refine ⟨?_, ?_, ?_, ?_, ?_, ?_⟩
  · exact upsert_filter Command.id c2.id c2 rfl _
  · exact upsert_find Command.id c2.id c2 rfl _
  · exact upsert_filter Host.id h2.id h2 rfl _
  · exact upsert_find Host.id h2.id h2 rfl _
  · exact upsert_filter Workflow.id w2.id w2 rfl _
  · exact upsert_find Workflow.id w2.id w2 rfl _

/-- Witness for C6 at concrete records sharing identities. -/
theorem add_twice_upserts_witness :
    cmdA.id = cmdA2.id ∧ hostA.id = hostA2.id ∧ wfA.id = wfA2.id ∧
    get_command (add_command (add_command emptyData cmdA) cmdA2) cmdA2.id = some cmdA2 :=
  ⟨rfl, rfl, rfl,
    (add_twice_upserts emptyData cmdA cmdA2 rfl hostA hostA2 rfl wfA wfA2 rfl).2.1⟩

/-! ## C5 — referential integrity of command removal -/

/-- C5 counterexample: the Store's own `remove_command` removes a command even
while a workflow references it. -/
theorem remove_command_ignores_references :
    is_command_in_workflow dRef 1 = true
  ∧ get_command (remove_command dRef 1) 1 = none := by
  exact ⟨rfl, rfl⟩

/-- C5 (amended): `remove_command` is unconditional; the deletion gate is the
caller's check of `is_command_in_workflow` — the gated removal leaves a
referenced command in place, removes an unreferenced one, and removing the only
referencing workflow clears the reference check. -/
theorem command_reference_gate (d : StoreData) (cid : Uuid) :
    (is_command_in_workflow d cid = true → gated_remove_command d cid = d)
  ∧ (is_command_in_workflow d cid = false →
      get_command (gated_remove_command d cid) cid = none)
  ∧ (∀ wid, (∀ w ∈ d.workflows, cid ∈ w.commands → w.id = wid) →
      is_command_in_workflow (remove_workflow d wid) cid = false)
  ∧ get_command (remove_command d cid) cid = none := by
  refine ⟨?_, ?_, ?_, ?_⟩
  · intro h
    simp [gated_remove_command, h]
  · intro h
    simp only [gated_remove_command, h, Bool.false_eq_true, if_false]
    exact filter_ne_find_none Command.id cid d.commands
  · intro wid h
    simp only [is_command_in_workflow, remove_workflow]
    rw [List.any_eq_false]
    intro w hw
    have hmem := List.mem_filter.mp hw
    intro hcontains
    have hcid : cid ∈ w.commands := by
      simpa using hcontains
    have : w.id = wid := h w hmem.1 hcid
    have hne : (w.id != wid) = true := hmem.2
    simp [this] at hne
  · exact filter_ne_find_none Command.id cid d.commands

/-- Witness for C5 (amended): with command 1 referenced by workflow 7, the gated
removal is a no-op; after removing workflow 7 it deletes the command. -/
theorem command_reference_gate_witness :
    is_command_in_workflow dRef 1 = true
  ∧ gated_remove_command dRef 1 = dRef
  ∧ is_command_in_workflow (remove_workflow dRef 7) 1 = false
  ∧ get_command (gated_remove_command (remove_workflow dRef 7) 1) 1 = none :=
  ⟨rfl, (command_reference_gate dRef 1).1 rfl, rfl,
    (command_reference_gate (remove_workflow dRef 7) 1).2.1 rfl⟩

/-! ## C8 — execution-log round trip -/

/-- C8: an execution log written by `add_execution` is read back verbatim by
`get_execution_log` under the same execution id. -/
theorem execution_log_roundtrip (s : Store) (r : ExecutionResult) (o : String) :
    get_execution_log (add_execution s r o) r.id = some o := by
  simp only [get_execution_log, add_execution, writeLog]
  rw [upsert_find ExecutionResult.id r.id r rfl]
  simp only [Option.some_bind]
  exact upsert_lookup r.log_file o s.logs

/-! ## JSON model (serde derive on the models, store.rs export/import)

`export_json` pretty-prints `StoreData` and `import_json` parses it back; the
derive-generated mapping between records and JSON values is modelled here
field by field (declaration order, externally tagged enums, `Option` as
null-or-value, `#[serde(skip)]` on `Command.source_path`, `#[serde(default)]`
on `Command.background` and `StoreData.executions`).  The text layer
(pretty-printing and parsing of the JSON tree itself) is serde_json's. -/

inductive Json where
  | null
  | bool (b : Bool)
  | num (n : Int)
  | str (s : String)
  | arr (xs : List Json)
  | obj (fields : List (String × Json))

def getField (fs : List (String × Json)) (k : String) : Option Json :=
  (fs.find? (fun p => p.1 == k)).map (fun p => p.2)

def decStr : Json → Option String
  | .str s => some s
  | _ => none

def decBool : Json → Option Bool
  | .bool b => some b
  | _ => none

def decNat : Json → Option Nat
  | .num n => if n < 0 then none else some n.toNat
  | _ => none

def decInt : Json → Option Int
  | .num n => some n
  | _ => none

def encNat (n : Nat) : Json := .num n

def encOpt {α : Type} (f : α → Json) : Option α → Json
  | none => .null
  | some a => f a

def decOpt {α : Type} (f : Json → Option α) : Json → Option (Option α)
  | .null => some none
  | j => (f j).map some

def decodeEach {α : Type} (f : Json → Option α) : List Json → Option (List α)
  | [] => some []
  | j :: js =>
    (f j).bind fun a => (decodeEach f js).bind fun as => some (a :: as)

def decArr {α : Type} (f : Json → Option α) : Json → Option (List α)
  | .arr xs => decodeEach f xs
  | _ => none

def encEnvVar (v : EnvVar) : Json :=
  .obj [("key", .str v.key), ("value", .str v.value), ("ask_user", .bool v.ask_user)]

def decEnvVar : Json → Option EnvVar
  | .obj fs =>
    (getField fs "key").bind fun j0 => (decStr j0).bind fun key =>
    (getField fs "value").bind fun j1 => (decStr j1).bind fun value =>
    (getField fs "ask_user").bind fun j2 => (decBool j2).bind fun ask =>
    some { key := key, value := value, ask_user := ask }
  | _ => none

def encAuth : AuthMethod → Json
  | .password s => .obj [("Password", .str s)]
  | .keyFile s => .obj [("KeyFile", .str s)]
  | .agent => .str "Agent"

def decAuth : Json → Option AuthMethod
  | .str s => if s = "Agent" then some AuthMethod.agent else none
  | .obj fs =>
    match getField fs "Password" with
    | some jp => (decStr jp).map AuthMethod.password
    | none =>
      match getField fs "KeyFile" with
      | some jk => (decStr jk).map AuthMethod.keyFile
      | none => none
  | _ => none

def encHost (h : Host) : Json :=
  .obj [("id", .num h.id), ("name", .str h.name), ("hostname", .str h.hostname),
        ("port", .num h.port), ("username", .str h.username), ("auth", encAuth h.auth)]

def decHost : Json → Option Host
  | .obj fs => do
    let id ← getField fs "id" >>= decNat
    let name ← getField fs "name" >>= decStr
    let hostname ← getField fs "hostname" >>= decStr
    let port ← getField fs "port" >>= decNat
    let username ← getField fs "username" >>= decStr
    let auth ← getField fs "auth" >>= decAuth
    some { id := id, name := name, hostname := hostname, port := port,
           username := username, auth := auth }
  | _ => none

def encCommand (c : Command) : Json :=
  .obj [("id", .num c.id), ("name", .str c.name),
        ("description", encOpt Json.str c.description),
        ("script", .str c.script),
        ("working_directory", encOpt Json.str c.working_directory),
        ("env_vars", .arr (c.env_vars.map encEnvVar)),
        ("host", encOpt Json.str c.host), ("user", encOpt Json.str c.user),
        ("target_hosts", .arr (c.target_hosts.map encNat)),
        ("created_at", .num c.created_at), ("background", .bool c.background)]

def decCommand : Json → Option Command
  | .obj fs => do
    let id ← getField fs "id" >>= decNat
    let name ← getField fs "name" >>= decStr
    let description ← getField fs "description" >>= decOpt decStr
    let script ← getField fs "script" >>= decStr
    let working_directory ← getField fs "working_directory" >>= decOpt decStr
    let env_vars ← getField fs "env_vars" >>= decArr decEnvVar
    let host ← getField fs "host" >>= decOpt decStr
    let user ← getField fs "user" >>= decOpt decStr
    let target_hosts ← getField fs "target_hosts" >>= decArr decNat
    let created_at ← getField fs "created_at" >>= decNat
    let background ← match getField fs "background" with
      | none => some false
      | some jb => decBool jb
    some { id := id, name := name, description := description, script := script,
           working_directory := working_directory, env_vars := env_vars,
           host := host, user := user, target_hosts := target_hosts,
           created_at := created_at, background := background, source_path := none }
  | _ => none

def encWorkflow (w : Workflow) : Json :=
  .obj [("id", .num w.id), ("name", .str w.name),
        ("description", encOpt Json.str w.description),
        ("commands", .arr (w.commands.map encNat)),
        ("env_vars", .arr (w.env_vars.map encEnvVar)),
        ("created_at", .num w.created_at)]

def decWorkflow : Json → Option Workflow
  | .obj fs => do
    let id ← getField fs "id" >>= decNat
    let name ← getField fs "name" >>= decStr
    let description ← getField fs "description" >>= decOpt decStr
    let commands ← getField fs "commands" >>= decArr decNat
    let env_vars ← getField fs "env_vars" >>= decArr decEnvVar
    let created_at ← getField fs "created_at" >>= decNat
    some { id := id, name := name, description := description, commands := commands,
           env_vars := env_vars, created_at := created_at }
  | _ => none

def encStatus : ExecutionStatus → Json
  | .pending => .str "Pending"
  | .running => .str "Running"
  | .completed => .str "Completed"
  | .failed => .str "Failed"

def decStatus : Json → Option ExecutionStatus
  | .str s =>
    if s = "Pending" then some ExecutionStatus.pending
    else if s = "Running" then some ExecutionStatus.running
    else if s = "Completed" then some ExecutionStatus.completed
    else if s = "Failed" then some ExecutionStatus.failed
    else none
  | _ => none

def encExecution (e : ExecutionResult) : Json :=
  .obj [("id", .num e.id), ("command_id", .num e.command_id),
        ("host_id", .num e.host_id), ("started_at", .num e.started_at),
        ("finished_at", encOpt encNat e.finished_at),
        ("exit_code", encOpt Json.num e.exit_code),
        ("duration_ms", encOpt encNat e.duration_ms),
        ("status", encStatus e.status), ("log_file", .str e.log_file)]

def decExecution : Json → Option ExecutionResult
  | .obj fs => do
    let id ← getField fs "id" >>= decNat
    let command_id ← getField fs "command_id" >>= decNat
    let host_id ← getField fs "host_id" >>= decNat
    let started_at ← getField fs "started_at" >>= decNat
    let finished_at ← getField fs "finished_at" >>= decOpt decNat
    let exit_code ← getField fs "exit_code" >>= decOpt decInt
    let duration_ms ← getField fs "duration_ms" >>= decOpt decNat
    let status ← getField fs "status" >>= decStatus
    let log_file ← getField fs "log_file" >>= decStr
    some { id := id, command_id := command_id, host_id := host_id,
           started_at := started_at, finished_at := finished_at,
           exit_code := exit_code, duration_ms := duration_ms, status := status,
           log_file := log_file }
  | _ => none

def encStoreData (d : StoreData) : Json :=
  .obj [("commands", .arr (d.commands.map encCommand)),
        ("workflows", .arr (d.workflows.map encWorkflow)),
        ("hosts", .arr (d.hosts.map encHost)),
        ("executions", .arr (d.executions.map encExecution))]

def decStoreData : Json → Option StoreData
  | .obj fs => do
    let commands ← getField fs "commands" >>= decArr decCommand
    let workflows ← getField fs "workflows" >>= decArr decWorkflow
    let hosts ← getField fs "hosts" >>= decArr decHost
    let executions ← match getField fs "executions" with
      | none => some []
      | some je => decArr decExecution je
    some { commands := commands, workflows := workflows, hosts := hosts,
           executions := executions }
  | _ => none

/-- store.rs `export_json`: serialize the guarded `StoreData`. -/
def export_json (s : Store) : Json := encStoreData s.data

/-- store.rs `import_json`: parse, then overwrite the in-memory state. -/
def import_json (s : Store) (j : Json) : Option Store :=
  (decStoreData j).map (fun d => { s with data := d })

/-- `#[serde(skip)]`: the only field a serialize/deserialize cycle does not
carry over. -/
def stripSource (c : Command) : Command := { c with source_path := none }

/-! ### Round-trip lemmas for the JSON model -/

theorem decNat_enc (n : Nat) : decNat (Json.num n) = some n := by
  have hnn : ¬ ((n : Int) < 0) := by
    exact not_lt.mpr (Int.natCast_nonneg n)
  simp [decNat, hnn]

theorem decodeEach_map {α : Type} (enc : α → Json) (dec : Json → Option α)
    (h : ∀ x, dec (enc x) = some x) (xs : List α) :
    decodeEach dec (xs.map enc) = some xs := by
  induction xs with
  | nil => rfl
  | cons x xs ih => simp [decodeEach, h, ih]

theorem decEnvVar_enc (v : EnvVar) : decEnvVar (encEnvVar v) = some v := rfl

theorem decAuth_enc (a : AuthMethod) : decAuth (encAuth a) = some a := by
  cases a <;> rfl

theorem decHost_enc (h : Host) : decHost (encHost h) = some h := by
  simp [decHost, encHost, getField, decNat_enc, decStr, decAuth_enc]

theorem decOpt_not_null {α : Type} (dec : Json → Option α) (j : Json)
    (h : j ≠ Json.null) : decOpt dec j = (dec j).map some := by
  cases j with
  | null => exact absurd rfl h
  | bool b => rfl
  | num n => rfl
  | str s => rfl
  | arr xs => rfl
  | obj fs => rfl

theorem decOpt_enc {α : Type} (enc : α → Json) (dec : Json → Option α)
    (hnn : ∀ x, enc x ≠ Json.null) (h : ∀ x, dec (enc x) = some x)
    (o : Option α) : decOpt dec (encOpt enc o) = some o := by
  cases o with
  | none => rfl
  | some x =>
    show decOpt dec (enc x) = some (some x)
    rw [decOpt_not_null dec (enc x) (hnn x), h x]
    rfl

theorem decCommand_enc (c : Command) : decCommand (encCommand c) = some (stripSource c) := by
  simp [decCommand, encCommand, getField, decNat_enc, decStr, decArr,
        decodeEach_map encEnvVar decEnvVar decEnvVar_enc,
        decodeEach_map encNat decNat decNat_enc,
        decOpt_enc Json.str decStr (fun _ => by simp) (fun _ => rfl),
        decBool, stripSource]

theorem decWorkflow_enc (w : Workflow) : decWorkflow (encWorkflow w) = some w := by
  simp [decWorkflow, encWorkflow, getField, decNat_enc, decStr, decArr,
        decodeEach_map encEnvVar decEnvVar decEnvVar_enc,
        decodeEach_map encNat decNat decNat_enc,
        decOpt_enc Json.str decStr (fun _ => by simp) (fun _ => rfl)]

theorem decStatus_enc (st : ExecutionStatus) : decStatus (encStatus st) = some st := by
  cases st <;> rfl

theorem decExecution_enc (e : ExecutionResult) : decExecution (encExecution e) = some e := by
  simp [decExecution, encExecution, getField, decNat_enc, decStr, decInt,
        decStatus_enc,
        decOpt_enc encNat decNat (fun _ => by simp [encNat]) decNat_enc,
        decOpt_enc Json.num decInt (fun _ => by simp) (fun _ => rfl)]

theorem decodeEach_commands (cs : List Command) :
    decodeEach decCommand (cs.map encCommand) = some (cs.map stripSource) := by
  induction cs with
  | nil => rfl
  | cons c cs ih => simp [decodeEach, decCommand_enc, ih]

theorem decStoreData_enc (d : StoreData) :
    decStoreData (encStoreData d) =
      some { d with commands := d.commands.map stripSource } := by
  simp [decStoreData, encStoreData, getField, decArr,
        decodeEach_commands,
        decodeEach_map encWorkflow decWorkflow decWorkflow_enc,
        decodeEach_map encHost decHost decHost_enc,
        decodeEach_map encExecution decExecution decExecution_enc]

/-! ## C7 — export/import round trip -/

/-- C7: `export_json` followed by `import_json` into any store reproduces the
commands (on identity), workflows, hosts and execution metadata, leaves the
target's log directory alone, and fully replaces the importing store's
in-memory state (the result does not depend on the previous data). -/
theorem export_import_roundtrip (s t : Store) :
    ∃ t2, import_json t (export_json s) = some t2
  ∧ t2.data.commands.map Command.id = s.data.commands.map Command.id
  ∧ t2.data.workflows = s.data.workflows
  ∧ t2.data.hosts = s.data.hosts
  ∧ t2.data.executions = s.data.executions
  ∧ t2.logs = t.logs
  ∧ (∀ u : Store, import_json u (export_json s) = some { u with data := t2.data }) := by
  refine ⟨{ t with data := { s.data with commands := s.data.commands.map stripSource } },
    ?_, ?_, rfl, rfl, rfl, rfl, ?_⟩
  · simp [import_json, export_json, decStoreData_enc]
  · simp [List.map_map]
    intro c _
    rfl
  · intro u
    simp [import_json, export_json, decStoreData_enc]

/-! ## Executor (executor.rs `SshExecutor::execute`)

`execute` clones what it needs, spawns a worker thread and returns `Ok(())`;
every outcome is delivered through the callback.  The worker is modelled as a
trace generator over an oracle supplying the outcomes of the environment
(filesystem, process spawning, network, child output).  The local foreground
path runs three threads — the polling main loop plus one reader per pipe, each
calling the callback directly — so it is modelled as a small-step machine
driven by an explicit interleaving schedule; the remote path is sequential. -/

/-- Rust `str::to_lowercase`, modelled character-wise. -/
def lowercase (s : String) : String := String.mk (s.data.map Char.toLower)

/-- The routing test of executor.rs lines 54-57: worker name compared (after
lowercasing) against `local`, hostname against `localhost` (lowercased) and
against `127.0.0.1` (verbatim). -/
def isLocalRoute (h : Host) : Bool :=
  lowercase h.name == "local" || lowercase h.hostname == "localhost"
    || h.hostname == "127.0.0.1"

/-- Modelled from the spec: a loopback alias is `local`, `localhost` or
`127.0.0.1`, compared case-insensitively. -/
def specIsLoopback (s : String) : Bool :=
  lowercase s == "local" || lowercase s == "localhost" || lowercase s == "127.0.0.1"

/-- Modelled from the spec: the claimed selection rule — local execution iff
the host's name or hostname is a loopback alias. -/
def specRoutesLocal (h : Host) : Bool :=
  specIsLoopback h.name || specIsLoopback h.hostname

/-- The stderr chunk both kill paths emit before terminating the child. -/
def killAckMsg : String := "\n[Killing execution...]\n"

/-- The second stderr chunk of the remote kill path. -/
def terminatedMsg : String := "[Execution terminated]\n"

/-- A single-quote character as a string (for messages quoting user input). -/
def squote : String := String.mk [Char.ofNat 39]

/-- Outcome of the local child process as the main loop's `try_wait` sees it:
either the process finished (with `status.code()`, which is `None` when killed
by a signal) or `try_wait` itself errored. -/
inductive ChildOutcome where
  | exited (code : Option Int)
  | waitErr
deriving DecidableEq

/-- The exit value the main loop reports for a finished child
(`status.code().unwrap_or(-1)`, and `-1` on a `try_wait` error). -/
def exitValue : ChildOutcome → Int
  | .exited c => c.getD (-1)
  | .waitErr => -1

/-- Actors of the local foreground run: the child process terminating, the
kill-channel sender, the stdout reader thread, the stderr reader thread, and
one iteration of the main polling loop. -/
inductive Tid where
  | child
  | kill
  | out
  | err
  | main
deriving DecidableEq

/-- Environment oracle for the local path: staging failures, the chunk
sequences the child writes to each pipe, how the child run ends, and the
interleaving schedule of the three threads plus kill-sender and child. -/
structure LocalOracle where
  createErr : Option String
  writeErr : Option String
  spawnErr : Option String
  outChunks : List String
  errChunks : List String
  childOutcome : ChildOutcome
  sched : List Tid
deriving DecidableEq

/-- State of the local-path run: chunks not yet read from each pipe, whether
the child has terminated on its own or been killed, whether the kill message
has been sent and consumed, and whether the main loop has returned. -/
structure LocalState where
  outRem : List String
  errRem : List String
  childDone : Bool
  childKilled : Bool
  killArrived : Bool
  killConsumed : Bool
  mainDone : Bool
deriving DecidableEq

def initL (o : LocalOracle) : LocalState :=
  { outRem := o.outChunks, errRem := o.errChunks, childDone := false,
    childKilled := false, killArrived := false, killConsumed := false,
    mainDone := false }

/-- One scheduled step of the local-path run.  The reader threads
(executor.rs lines 118-142) forward chunks straight to the callback and are
never joined; the main loop (lines 144-169) polls the kill channel first, then
`try_wait`, emitting the single `Exit` event on either the kill branch or the
observed child exit. -/
def stepL (o : LocalOracle) (s : LocalState) : Tid → LocalState × List ExecutionUpdate
  | .child =>
    if s.childDone || s.childKilled then (s, [])
    else ({ s with childDone := true }, [])
  | .kill =>
    ({ s with killArrived := true }, [])
  | .out =>
    match s.outRem with
    | [] => (s, [])
    | c :: rest => ({ s with outRem := rest }, [ExecutionUpdate.stdout c])
  | .err =>
    match s.errRem with
    | [] => (s, [])
    | c :: rest => ({ s with errRem := rest }, [ExecutionUpdate.stderr c])
  | .main =>
    if s.mainDone then (s, [])
    else if s.killArrived then
      ({ s with childKilled := true, killConsumed := true, mainDone := true },
        [ExecutionUpdate.stderr killAckMsg, ExecutionUpdate.exit (-1)])
    else if s.childDone then
      ({ s with mainDone := true }, [ExecutionUpdate.exit (exitValue o.childOutcome)])
    else (s, [])

/-- Run the local-path machine over a schedule, collecting callback events. -/
def runL (o : LocalOracle) (s : LocalState) : List Tid → LocalState × List ExecutionUpdate
  | [] => (s, [])
  | t :: ts =>
    let p := stepL o s t
    let q := runL o p.1 ts
    (q.1, p.2 ++ q.2)

/-- Callback events of the local path after `Started` (executor.rs lines
58-172): staging failures short-circuit with a diagnostic and `Exit(-1)`;
otherwise the three threads run under the oracle's schedule. -/
def localTrace (o : LocalOracle) : List ExecutionUpdate :=
  match o.createErr with
  | some e => [.stderr ("Failed to create temp file: " ++ e), .exit (-1)]
  | none =>
  match o.writeErr with
  | some e => [.stderr ("Failed to write script: " ++ e), .exit (-1)]
  | none =>
  match o.spawnErr with
  | some e => [.stderr ("Failed to spawn local command: " ++ e), .exit (-1)]
  | none => (runL o (initL o) o.sched).2

/-- One iteration of the remote read loop (executor.rs lines 331-381): the
kill poll, the two non-blocking reads, and the EOF test. -/
structure RemoteIter where
  kill : Bool
  outRead : Option String
  errRead : Option String
  eof : Bool
deriving DecidableEq

/-- Environment oracle for the remote path (executor.rs lines 175-387). -/
structure RemoteOracle where
  connectErr : Option String
  handshakeErr : Option String
  agentOk : Bool
  keyOk : Bool
  sftpErr : Option String
  createErr : Option String
  writeErr : Option String
  channelErr : Option String
  execErr : Option String
  uuid : String
  iters : List RemoteIter
  exitStatus : Option Int
deriving DecidableEq

/-- The authentication-failure diagnostic of executor.rs lines 227-234. -/
def authFailMsg (h : Host) : String :=
  "❌ Authentication failed for user " ++ squote ++ h.username ++ squote
    ++ "\n\nTroubleshooting:\n1. Verify your SSH keys are set up for "
    ++ h.hostname
    ++ "\n2. Run " ++ squote ++ "ssh-add -l" ++ squote
    ++ " to check if your key is loaded in the agent\n3. Try "
    ++ squote ++ "ssh " ++ h.username ++ "@" ++ h.hostname ++ squote
    ++ " manually to test the connection\n4. Check that your public key is in ~/.ssh/authorized_keys on the remote host\n"

/-- The remote read loop: a kill poll ends the run with the two stderr notices
and `Exit(-1)`; otherwise any read chunks are forwarded, and on EOF (or when
the oracle's iterations are exhausted, which stands for the final EOF
iteration) the loop falls through to `wait_close` and
`Exit(exit_status().unwrap_or(-1))`. -/
def remoteLoop (exitStatus : Option Int) : List RemoteIter → List ExecutionUpdate
  | [] => [.exit (exitStatus.getD (-1))]
  | it :: rest =>
    if it.kill then
      [.stderr killAckMsg, .stderr terminatedMsg, .exit (-1)]
    else
      (match it.outRead with
        | some s => [ExecutionUpdate.stdout s]
        | none => []) ++
      (match it.errRead with
        | some s => [ExecutionUpdate.stderr s]
        | none => []) ++
      (if it.eof then [ExecutionUpdate.exit (exitStatus.getD (-1))]
       else remoteLoop exitStatus rest)

/-- Remote-path events after authentication succeeded (executor.rs lines
239-387): SFTP staging, the upload notice, channel setup, then the read loop.
The exec command line fed to `channel.exec` does not influence the emitted
events and is elided. -/
def remoteAfterAuth (o : RemoteOracle) : List ExecutionUpdate :=
  match o.sftpErr with
  | some e => [.stderr ("Failed to start SFTP: " ++ e), .exit (-1)]
  | none =>
  match o.createErr with
  | some e => [.stderr ("Failed to create temp file: " ++ e), .exit (-1)]
  | none =>
  match o.writeErr with
  | some e => [.stderr ("Failed to write script: " ++ e), .exit (-1)]
  | none =>
    .stdout ("Script uploaded to /tmp/switchboard_" ++ o.uuid ++ ".sh\n") ::
    match o.channelErr with
    | some e => [.stderr ("Failed to open channel: " ++ e), .exit (-1)]
    | none =>
    match o.execErr with
    | some e => [.stderr ("Failed to exec: " ++ e), .exit (-1)]
    | none => remoteLoop o.exitStatus o.iters

/-- Callback events of the remote path after `Started` (executor.rs lines
175-387). -/
def remoteTrace (h : Host) (o : RemoteOracle) : List ExecutionUpdate :=
  match o.connectErr with
  | some e => [.stderr ("Failed to connect: " ++ e), .exit (-1)]
  | none =>
  match o.handshakeErr with
  | some e => [.stderr ("Handshake failed: " ++ e), .exit (-1)]
  | none =>
    if o.agentOk then
      .stdout "✓ Authenticated via SSH agent\n" :: remoteAfterAuth o
    else if o.keyOk then
      remoteAfterAuth o
    else
      [.stderr (authFailMsg h), .exit (-1)]

/-- executor.rs `ExecuteError` (the synchronous error type of the contract). -/
inductive ExecuteError where
  | sshError (s : String)
  | connectionFailed
deriving DecidableEq

/-- Per-execution environment oracle. -/
structure ExecOracle where
  loc : LocalOracle
  rem : RemoteOracle
deriving DecidableEq

/-- executor.rs `SshExecutor::execute`: emit `Started(command.id)`, route by
`isLocalRoute`, and return `Ok(())` to the caller unconditionally (the worker
body never feeds back into the return value). -/
def SshExecutor_execute (cmd : Command) (h : Host) (o : ExecOracle) :
    Except ExecuteError Unit × List ExecutionUpdate :=
  (Except.ok (),
    .started cmd.id ::
      (if isLocalRoute h then localTrace o.loc else remoteTrace h o.rem))

/-- The event sequence the callback observes for one execution. -/
def workerTrace (cmd : Command) (h : Host) (o : ExecOracle) : List ExecutionUpdate :=
  (SshExecutor_execute cmd h o).2

/-! ### Event predicates -/

def isOutput : ExecutionUpdate → Bool
  | .stdout _ => true
  | .stderr _ => true
  | _ => false

def isExitEv : ExecutionUpdate → Bool
  | .exit _ => true
  | _ => false

def isStartedEv : ExecutionUpdate → Bool
  | .started _ => true
  | _ => false

/-- Every event of the list is an output chunk. -/
def onlyOutput (l : List ExecutionUpdate) : Bool := l.all isOutput

/-- Everything delivered after an `Exit` event is an output chunk (the shape
the unjoined reader threads can produce). -/
def postExitOnlyOutput (l : List ExecutionUpdate) : Prop :=
  ∀ a v b, l = a ++ ExecutionUpdate.exit v :: b → onlyOutput b = true

theorem onlyOutput_countP_zero (p : ExecutionUpdate → Bool)
    (hp : ∀ x, isOutput x = true → p x = false) (a : List ExecutionUpdate)
    (h : onlyOutput a = true) : a.countP p = 0 := by
  rw [List.countP_eq_zero]
  intro x hx
  have hox : isOutput x = true := by
    have := List.all_eq_true.mp h x hx
    simpa using this
  simp [hp x hox]

theorem isExitEv_output_false : ∀ x, isOutput x = true → isExitEv x = false := by
  intro x hx
  cases x <;> simp_all [isOutput, isExitEv]

theorem isStartedEv_output_false : ∀ x, isOutput x = true → isStartedEv x = false := by
  intro x hx
  cases x <;> simp_all [isOutput, isStartedEv]

theorem postExit_of_count (l : List ExecutionUpdate)
    (hcount : l.countP isExitEv ≤ 1)
    (hmem : ∀ x ∈ l, isOutput x = true ∨ isExitEv x = true) :
    postExitOnlyOutput l := by
  intro a v b hsplit
  have hb0 : b.countP isExitEv = 0 := by
    rw [hsplit, List.countP_append, List.countP_cons] at hcount
    simp [isExitEv] at hcount
    omega
  rw [onlyOutput, List.all_eq_true]
  intro x hx
  have hxl : x ∈ l := by
    rw [hsplit]
    exact List.mem_append_right a (List.mem_cons_of_mem _ hx)
  rcases hmem x hxl with ho | he
  · simpa using ho
  · exfalso
    have : 0 < b.countP isExitEv := List.countP_pos_iff.mpr ⟨x, hx, he⟩
    omega

theorem postExit_cons (e : ExecutionUpdate) (l : List ExecutionUpdate)
    (he : isExitEv e = false) (hl : postExitOnlyOutput l) :
    postExitOnlyOutput (e :: l) := by
  intro a v b h
  cases a with
  | nil =>
    simp only [List.nil_append, List.cons.injEq] at h
    rw [h.1] at he
    simp [isExitEv] at he
  | cons x a2 =>
    simp only [List.cons_append, List.cons.injEq] at h
    exact hl a2 v b h.2

/-! ### Local-machine step equations -/

theorem runL_cons (o : LocalOracle) (s : LocalState) (t : Tid) (ts : List Tid) :
    runL o s (t :: ts) =
      ((runL o (stepL o s t).1 ts).1, (stepL o s t).2 ++ (runL o (stepL o s t).1 ts).2) := rfl

theorem runL_append (o : LocalOracle) (ts1 ts2 : List Tid) :
    ∀ s, runL o s (ts1 ++ ts2) =
      ((runL o (runL o s ts1).1 ts2).1,
        (runL o s ts1).2 ++ (runL o (runL o s ts1).1 ts2).2) := by
  induction ts1 with
  | nil => intro s; simp [runL]
  | cons t ts ih =>
    intro s
    simp only [List.cons_append, runL_cons, ih, List.append_assoc]

theorem stepL_child_done (o : LocalOracle) (s : LocalState)
    (h : (s.childDone || s.childKilled) = true) : stepL o s .child = (s, []) := by
  simp [stepL, h]

theorem stepL_child_run (o : LocalOracle) (s : LocalState)
    (h : (s.childDone || s.childKilled) = false) :
    stepL o s .child = ({ s with childDone := true }, []) := by
  simp [stepL, h]

theorem stepL_kill (o : LocalOracle) (s : LocalState) :
    stepL o s .kill = ({ s with killArrived := true }, []) := rfl

theorem stepL_out_nil (o : LocalOracle) (s : LocalState) (h : s.outRem = []) :
    stepL o s .out = (s, []) := by
  simp [stepL, h]

theorem stepL_out_cons (o : LocalOracle) (s : LocalState) (c : String)
    (rest : List String) (h : s.outRem = c :: rest) :
    stepL o s .out = ({ s with outRem := rest }, [ExecutionUpdate.stdout c]) := by
  simp [stepL, h]

theorem stepL_err_nil (o : LocalOracle) (s : LocalState) (h : s.errRem = []) :
    stepL o s .err = (s, []) := by
  simp [stepL, h]

theorem stepL_err_cons (o : LocalOracle) (s : LocalState) (c : String)
    (rest : List String) (h : s.errRem = c :: rest) :
    stepL o s .err = ({ s with errRem := rest }, [ExecutionUpdate.stderr c]) := by
  simp [stepL, h]

theorem stepL_main_done (o : LocalOracle) (s : LocalState) (h : s.mainDone = true) :
    stepL o s .main = (s, []) := by
  simp [stepL, h]

theorem stepL_main_kill (o : LocalOracle) (s : LocalState) (hm : s.mainDone = false)
    (hk : s.killArrived = true) :
    stepL o s .main =
      ({ s with childKilled := true, killConsumed := true, mainDone := true },
        [ExecutionUpdate.stderr killAckMsg, ExecutionUpdate.exit (-1)]) := by
  simp [stepL, hm, hk]

theorem stepL_main_exit (o : LocalOracle) (s : LocalState) (hm : s.mainDone = false)
    (hk : s.killArrived = false) (hc : s.childDone = true) :
    stepL o s .main =
      ({ s with mainDone := true }, [ExecutionUpdate.exit (exitValue o.childOutcome)]) := by
  simp [stepL, hm, hk, hc]

theorem stepL_main_sleep (o : LocalOracle) (s : LocalState) (hm : s.mainDone = false)
    (hk : s.killArrived = false) (hc : s.childDone = false) :
    stepL o s .main = (s, []) := by
  simp [stepL, hm, hk, hc]

/-! ### Local-machine invariants -/

theorem runL_mainDone (o : LocalOracle) (ts : List Tid) :
    ∀ s : LocalState, s.mainDone = true →
    (runL o s ts).1.mainDone = true
  ∧ (runL o s ts).1.killConsumed = s.killConsumed
  ∧ (runL o s ts).1.childKilled = s.childKilled
  ∧ onlyOutput (runL o s ts).2 = true := by
  induction ts with
  | nil => intro s h; exact ⟨h, rfl, rfl, rfl⟩
  | cons t ts ih =>
    intro s h
    cases t with
    | child =>
      cases hcc : (s.childDone || s.childKilled) with
      | true =>
        rw [runL_cons, stepL_child_done o s hcc]
        simpa using ih s h
      | false =>
        rw [runL_cons, stepL_child_run o s hcc]
        simpa using ih { s with childDone := true } h
    | kill =>
      rw [runL_cons, stepL_kill]
      simpa using ih { s with killArrived := true } h
    | out =>
      cases ho : s.outRem with
      | nil =>
        rw [runL_cons, stepL_out_nil o s ho]
        simpa using ih s h
      | cons c rest =>
        rw [runL_cons, stepL_out_cons o s c rest ho]
        have := ih { s with outRem := rest } h
        simpa [onlyOutput, isOutput] using this
    | err =>
      cases ho : s.errRem with
      | nil =>
        rw [runL_cons, stepL_err_nil o s ho]
        simpa using ih s h
      | cons c rest =>
        rw [runL_cons, stepL_err_cons o s c rest ho]
        have := ih { s with errRem := rest } h
        simpa [onlyOutput, isOutput] using this
    | main =>
      rw [runL_cons, stepL_main_done o s h]
      simpa using ih s h

/-- Structure of every local-path interleaving: until the main loop returns
only output chunks are delivered; the main loop delivers exactly one `Exit`,
either after observing the child's exit or on the kill branch (preceded by the
acknowledgment and with the child killed); whatever the reader threads still
deliver afterwards is output chunks. -/
theorem runL_struct (o : LocalOracle) (ts : List Tid) :
    ∀ s : LocalState, s.mainDone = false → s.killConsumed = false →
    ((runL o s ts).1.mainDone = false ∧ (runL o s ts).1.killConsumed = false
      ∧ onlyOutput (runL o s ts).2 = true)
  ∨ (∃ a b, onlyOutput a = true ∧ onlyOutput b = true
      ∧ (runL o s ts).1.mainDone = true
      ∧ (((runL o s ts).2 = a ++ ExecutionUpdate.exit (exitValue o.childOutcome) :: b
            ∧ (runL o s ts).1.killConsumed = false)
        ∨ ((runL o s ts).2
              = a ++ ExecutionUpdate.stderr killAckMsg :: ExecutionUpdate.exit (-1) :: b
            ∧ (runL o s ts).1.killConsumed = true
            ∧ (runL o s ts).1.childKilled = true))) := by
  induction ts with
  | nil => intro s hm hk; exact Or.inl ⟨hm, hk, rfl⟩
  | cons t ts ih =>
    intro s hm hk
    cases t with
    | child =>
      cases hcc : (s.childDone || s.childKilled) with
      | true =>
        rw [runL_cons, stepL_child_done o s hcc]
        simpa using ih s hm hk
      | false =>
        rw [runL_cons, stepL_child_run o s hcc]
        simpa using ih { s with childDone := true } hm hk
    | kill =>
      rw [runL_cons, stepL_kill]
      simpa using ih { s with killArrived := true } hm hk
    | out =>
      cases ho : s.outRem with
      | nil =>
        rw [runL_cons, stepL_out_nil o s ho]
        simpa using ih s hm hk
      | cons c rest =>
        rw [runL_cons, stepL_out_cons o s c rest ho]
        rcases ih { s with outRem := rest } hm hk with ⟨h1, h2, h3⟩ | ⟨a, b, ha, hb, hmd, hcase⟩
        · exact Or.inl ⟨h1, h2, by simpa [onlyOutput, isOutput] using h3⟩
        · refine Or.inr ⟨ExecutionUpdate.stdout c :: a, b,
            by simpa [onlyOutput, isOutput] using ha, hb, hmd, ?_⟩
          rcases hcase with ⟨hev, hkc⟩ | ⟨hev, hkc, hck⟩
          · exact Or.inl ⟨by simp [hev], hkc⟩
          · exact Or.inr ⟨by simp [hev], hkc, hck⟩
    | err =>
      cases ho : s.errRem with
      | nil =>
        rw [runL_cons, stepL_err_nil o s ho]
        simpa using ih s hm hk
      | cons c rest =>
        rw [runL_cons, stepL_err_cons o s c rest ho]
        rcases ih { s with errRem := rest } hm hk with ⟨h1, h2, h3⟩ | ⟨a, b, ha, hb, hmd, hcase⟩
        · exact Or.inl ⟨h1, h2, by simpa [onlyOutput, isOutput] using h3⟩
        · refine Or.inr ⟨ExecutionUpdate.stderr c :: a, b,
            by simpa [onlyOutput, isOutput] using ha, hb, hmd, ?_⟩
          rcases hcase with ⟨hev, hkc⟩ | ⟨hev, hkc, hck⟩
          · exact Or.inl ⟨by simp [hev], hkc⟩
          · exact Or.inr ⟨by simp [hev], hkc, hck⟩
    | main =>
      cases hka : s.killArrived with
      | true =>
        rw [runL_cons, stepL_main_kill o s hm hka]
        have md := runL_mainDone o ts
          { s with childKilled := true, killConsumed := true, mainDone := true } rfl
        refine Or.inr ⟨[], (runL o _ ts).2, rfl, md.2.2.2, md.1, Or.inr ⟨?_, ?_, ?_⟩⟩
        · simp
        · exact md.2.1
        · exact md.2.2.1
      | false =>
        cases hcd : s.childDone with
        | true =>
          rw [runL_cons, stepL_main_exit o s hm hka hcd]
          have md := runL_mainDone o ts { s with mainDone := true } rfl
          refine Or.inr ⟨[], (runL o _ ts).2, rfl, md.2.2.2, md.1, Or.inl ⟨?_, ?_⟩⟩
          · simp
          · rw [md.2.1]
            exact hk
        | false =>
          rw [runL_cons, stepL_main_sleep o s hm hka hcd]
          simpa using ih s hm hk

/-! ### Drain-first schedule: both readers finish before the main loop polls -/

/-- The schedule in which both reader threads drain their pipes completely,
then the child exits, then the main loop observes it. -/
def drainSched (o : LocalOracle) : List Tid :=
  List.replicate o.outChunks.length Tid.out
    ++ List.replicate o.errChunks.length Tid.err ++ [Tid.child, Tid.main]

theorem runL_drain_out (o : LocalOracle) :
    ∀ (outs : List String) (s : LocalState), s.outRem = outs →
    runL o s (List.replicate outs.length Tid.out)
      = ({ s with outRem := [] }, outs.map ExecutionUpdate.stdout) := by
  intro outs
  induction outs with
  | nil =>
    intro s h
    cases s
    simp only at h
    subst h
    rfl
  | cons c rest ih =>
    intro s h
    rw [show (c :: rest).length = rest.length + 1 from rfl, List.replicate_succ,
      runL_cons, stepL_out_cons o s c rest h, ih { s with outRem := rest } rfl]
    rfl

theorem runL_drain_err (o : LocalOracle) :
    ∀ (errs : List String) (s : LocalState), s.errRem = errs →
    runL o s (List.replicate errs.length Tid.err)
      = ({ s with errRem := [] }, errs.map ExecutionUpdate.stderr) := by
  intro errs
  induction errs with
  | nil =>
    intro s h
    cases s
    simp only at h
    subst h
    rfl
  | cons c rest ih =>
    intro s h
    rw [show (c :: rest).length = rest.length + 1 from rfl, List.replicate_succ,
      runL_cons, stepL_err_cons o s c rest h, ih { s with errRem := rest } rfl]
    rfl

theorem runL_drainSched (o : LocalOracle) :
    (runL o (initL o) (drainSched o)).2
      = o.outChunks.map ExecutionUpdate.stdout ++ o.errChunks.map ExecutionUpdate.stderr
        ++ [ExecutionUpdate.exit (exitValue o.childOutcome)]
  ∧ (runL o (initL o) (drainSched o)).1.mainDone = true := by
  rw [drainSched, runL_append, runL_append,
    runL_drain_out o o.outChunks (initL o) rfl,
    runL_drain_err o o.errChunks { initL o with outRem := [] } rfl]
  constructor
  · simp [runL, stepL, initL, exitValue, List.append_assoc]
  · simp [runL, stepL, initL]

/-- The run is over: a staging failure cut it short, or the main loop returned. -/
def localDone (o : LocalOracle) : Bool :=
  o.createErr.isSome || o.writeErr.isSome || o.spawnErr.isSome
    || (runL o (initL o) o.sched).1.mainDone

/-! ### Remote-path event shapes -/

/-- The chunks one non-kill loop iteration forwards. -/
def iterChunks (it : RemoteIter) : List ExecutionUpdate :=
  (match it.outRead with
    | some s => [ExecutionUpdate.stdout s]
    | none => []) ++
  (match it.errRead with
    | some s => [ExecutionUpdate.stderr s]
    | none => [])

theorem iterChunks_onlyOutput (it : RemoteIter) : onlyOutput (iterChunks it) = true := by
  unfold iterChunks
  cases it.outRead <;> cases it.errRead <;> simp [onlyOutput, isOutput]

theorem remoteLoop_cons_run (es : Option Int) (it : RemoteIter) (rest : List RemoteIter)
    (hk : it.kill = false) :
    remoteLoop es (it :: rest)
      = iterChunks it ++ (if it.eof then [ExecutionUpdate.exit (es.getD (-1))]
          else remoteLoop es rest) := by
  simp [remoteLoop, hk, iterChunks, List.append_assoc]

theorem onlyOutput_append (a b : List ExecutionUpdate) :
    onlyOutput (a ++ b) = (onlyOutput a && onlyOutput b) := by
  simp [onlyOutput, List.all_append]

/-- Every remote read loop ends in a single final `Exit` event. -/
theorem remoteLoop_ends (es : Option Int) (its : List RemoteIter) :
    ∃ a v, onlyOutput a = true ∧ remoteLoop es its = a ++ [ExecutionUpdate.exit v] := by
  induction its with
  | nil => exact ⟨[], es.getD (-1), rfl, rfl⟩
  | cons it rest ih =>
    cases hk : it.kill with
    | true =>
      refine ⟨[.stderr killAckMsg, .stderr terminatedMsg], -1, rfl, ?_⟩
      simp [remoteLoop, hk]
    | false =>
      cases he : it.eof with
      | true =>
        refine ⟨iterChunks it, es.getD (-1), iterChunks_onlyOutput it, ?_⟩
        rw [remoteLoop_cons_run es it rest hk, he]
        simp
      | false =>
        obtain ⟨a, v, ha, hl⟩ := ih
        refine ⟨iterChunks it ++ a, v, ?_, ?_⟩
        · rw [onlyOutput_append, iterChunks_onlyOutput, ha]
          rfl
        · rw [remoteLoop_cons_run es it rest hk, he]
          simp [hl, List.append_assoc]

/-- A kill polled before any EOF ends the remote loop with the two notices and
`Exit(-1)`, with nothing after them. -/
theorem remoteLoop_kill_end (es : Option Int) :
    ∀ (pre : List RemoteIter) (it : RemoteIter) (rest : List RemoteIter),
    (∀ j ∈ pre, j.kill = false ∧ j.eof = false) → it.kill = true →
    ∃ a, onlyOutput a = true
      ∧ remoteLoop es (pre ++ it :: rest)
          = a ++ [ExecutionUpdate.stderr killAckMsg,
              ExecutionUpdate.stderr terminatedMsg, ExecutionUpdate.exit (-1)] := by
  intro pre
  induction pre with
  | nil =>
    intro it rest hpre hk
    refine ⟨[], rfl, ?_⟩
    simp [remoteLoop, hk]
  | cons j pre ih =>
    intro it rest hpre hk
    have hj := hpre j (List.mem_cons_self j pre)
    obtain ⟨a, ha, hl⟩ := ih it rest (fun x hx => hpre x (List.mem_cons_of_mem j hx)) hk
    refine ⟨iterChunks j ++ a, ?_, ?_⟩
    · rw [onlyOutput_append, iterChunks_onlyOutput j, ha]
      rfl
    · rw [List.cons_append, remoteLoop_cons_run es j _ hj.1, hj.2]
      simp [hl, List.append_assoc]

/-- Facts following from the "outputs then a final exit" shape. -/
theorem shape_facts (l a : List ExecutionUpdate) (v : Int)
    (hl : l = a ++ [ExecutionUpdate.exit v]) (ha : onlyOutput a = true) :
    l.countP isStartedEv = 0
  ∧ l.countP isExitEv = 1
  ∧ l.getLast? = some (ExecutionUpdate.exit v)
  ∧ (∀ x ∈ l, isOutput x = true ∨ isExitEv x = true) := by
  subst hl
  refine ⟨?_, ?_, ?_, ?_⟩
  · rw [List.countP_append,
      onlyOutput_countP_zero isStartedEv isStartedEv_output_false a ha]
    simp [List.countP_cons, isStartedEv]
  · rw [List.countP_append,
      onlyOutput_countP_zero isExitEv isExitEv_output_false a ha]
    simp [List.countP_cons, isExitEv]
  · exact List.getLast?_concat a
  · intro x hx
    rcases List.mem_append.mp hx with h1 | h2
    · exact Or.inl (by simpa using List.all_eq_true.mp ha x h1)
    · have : x = ExecutionUpdate.exit v := by simpa using h2
      subst this
      exact Or.inr rfl

/-- Every remote trace is output chunks followed by one final `Exit`. -/
theorem remoteAfterAuth_ends (o : RemoteOracle) :
    ∃ a v, onlyOutput a = true ∧ remoteAfterAuth o = a ++ [ExecutionUpdate.exit v] := by
  cases hs : o.sftpErr with
  | some e =>
    exact ⟨[.stderr ("Failed to start SFTP: " ++ e)], -1, rfl, by simp [remoteAfterAuth, hs]⟩
  | none =>
  cases hc : o.createErr with
  | some e =>
    exact ⟨[.stderr ("Failed to create temp file: " ++ e)], -1, rfl,
      by simp [remoteAfterAuth, hs, hc]⟩
  | none =>
  cases hw : o.writeErr with
  | some e =>
    exact ⟨[.stderr ("Failed to write script: " ++ e)], -1, rfl,
      by simp [remoteAfterAuth, hs, hc, hw]⟩
  | none =>
  cases hch : o.channelErr with
  | some e =>
    refine ⟨[.stdout ("Script uploaded to /tmp/switchboard_" ++ o.uuid ++ ".sh\n"),
      .stderr ("Failed to open channel: " ++ e)], -1, rfl, ?_⟩
    simp [remoteAfterAuth, hs, hc, hw, hch]
  | none =>
  cases hex : o.execErr with
  | some e =>
    refine ⟨[.stdout ("Script uploaded to /tmp/switchboard_" ++ o.uuid ++ ".sh\n"),
      .stderr ("Failed to exec: " ++ e)], -1, rfl, ?_⟩
    simp [remoteAfterAuth, hs, hc, hw, hch, hex]
  | none =>
    obtain ⟨a, v, ha, hl⟩ := remoteLoop_ends o.exitStatus o.iters
    refine ⟨.stdout ("Script uploaded to /tmp/switchboard_" ++ o.uuid ++ ".sh\n") :: a,
      v, ?_, ?_⟩
    · simpa [onlyOutput, isOutput] using ha
    · simp [remoteAfterAuth, hs, hc, hw, hch, hex, hl]

theorem remoteTrace_ends (h : Host) (o : RemoteOracle) :
    ∃ a v, onlyOutput a = true ∧ remoteTrace h o = a ++ [ExecutionUpdate.exit v] := by
  cases hcn : o.connectErr with
  | some e =>
    exact ⟨[.stderr ("Failed to connect: " ++ e)], -1, rfl, by simp [remoteTrace, hcn]⟩
  | none =>
  cases hhs : o.handshakeErr with
  | some e =>
    exact ⟨[.stderr ("Handshake failed: " ++ e)], -1, rfl, by simp [remoteTrace, hcn, hhs]⟩
  | none =>
  cases hag : o.agentOk with
  | true =>
    obtain ⟨a, v, ha, hl⟩ := remoteAfterAuth_ends o
    refine ⟨.stdout "✓ Authenticated via SSH agent\n" :: a, v, ?_, ?_⟩
    · simpa [onlyOutput, isOutput] using ha
    · simp [remoteTrace, hcn, hhs, hag, hl]
  | false =>
  cases hkey : o.keyOk with
  | true =>
    obtain ⟨a, v, ha, hl⟩ := remoteAfterAuth_ends o
    exact ⟨a, v, ha, by simp [remoteTrace, hcn, hhs, hag, hkey, hl]⟩
  | false =>
    exact ⟨[.stderr (authFailMsg h)], -1, rfl,
      by simp [remoteTrace, hcn, hhs, hag, hkey]⟩

/-- Remote cancellation: with the session up and a kill polled before any EOF,
the trace ends with the acknowledgment, the termination notice, and
`Exit(-1)`, and nothing follows them. -/
theorem remoteTrace_kill (h : Host) (o : RemoteOracle)
    (hcn : o.connectErr = none) (hhs : o.handshakeErr = none)
    (hauth : o.agentOk = true ∨ o.keyOk = true)
    (hs : o.sftpErr = none) (hc : o.createErr = none) (hw : o.writeErr = none)
    (hch : o.channelErr = none) (hex : o.execErr = none)
    (pre : List RemoteIter) (it : RemoteIter) (rest : List RemoteIter)
    (hiters : o.iters = pre ++ it :: rest)
    (hpre : ∀ j ∈ pre, j.kill = false ∧ j.eof = false) (hk : it.kill = true) :
    ∃ a, onlyOutput a = true
      ∧ remoteTrace h o = a ++ [ExecutionUpdate.stderr killAckMsg,
          ExecutionUpdate.stderr terminatedMsg, ExecutionUpdate.exit (-1)] := by
  obtain ⟨a, ha, hl⟩ := remoteLoop_kill_end o.exitStatus pre it rest hpre hk
  rw [← hiters] at hl
  have hup : remoteAfterAuth o
      = .stdout ("Script uploaded to /tmp/switchboard_" ++ o.uuid ++ ".sh\n")
        :: remoteLoop o.exitStatus o.iters := by
    simp [remoteAfterAuth, hs, hc, hw, hch, hex]
  cases hag : o.agentOk with
  | true =>
    refine ⟨.stdout "✓ Authenticated via SSH agent\n"
      :: .stdout ("Script uploaded to /tmp/switchboard_" ++ o.uuid ++ ".sh\n") :: a, ?_, ?_⟩
    · simpa [onlyOutput, isOutput] using ha
    · simp [remoteTrace, hcn, hhs, hag, hup, hl]
  | false =>
    have hkey : o.keyOk = true := by
      rcases hauth with h1 | h1
      · rw [hag] at h1
        exact absurd h1 (by simp)
      · exact h1
    refine ⟨.stdout ("Script uploaded to /tmp/switchboard_" ++ o.uuid ++ ".sh\n") :: a, ?_, ?_⟩
    · simpa [onlyOutput, isOutput] using ha
    · simp [remoteTrace, hcn, hhs, hag, hkey, hup, hl]

/-- Facts about every local-machine run from `runL_struct`. -/
theorem runL_facts (o : LocalOracle) (ts : List Tid) :
    (runL o (initL o) ts).2.countP isStartedEv = 0
  ∧ (runL o (initL o) ts).2.countP isExitEv ≤ 1
  ∧ ((runL o (initL o) ts).1.mainDone = true →
      (runL o (initL o) ts).2.countP isExitEv = 1)
  ∧ (∀ x ∈ (runL o (initL o) ts).2, isOutput x = true ∨ isExitEv x = true) := by
  rcases runL_struct o ts (initL o) rfl rfl with ⟨h1, h2, h3⟩ | ⟨a, b, ha, hb, hmd, hcase⟩
  · refine ⟨onlyOutput_countP_zero isStartedEv isStartedEv_output_false _ h3, ?_, ?_, ?_⟩
    · rw [onlyOutput_countP_zero isExitEv isExitEv_output_false _ h3]
      omega
    · intro hc
      rw [h1] at hc
      exact absurd hc (by simp)
    · intro x hx
      exact Or.inl (by simpa using List.all_eq_true.mp h3 x hx)
  · have hza : a.countP isStartedEv = 0 :=
      onlyOutput_countP_zero isStartedEv isStartedEv_output_false a ha
    have hzb : b.countP isStartedEv = 0 :=
      onlyOutput_countP_zero isStartedEv isStartedEv_output_false b hb
    have hea : a.countP isExitEv = 0 :=
      onlyOutput_countP_zero isExitEv isExitEv_output_false a ha
    have heb : b.countP isExitEv = 0 :=
      onlyOutput_countP_zero isExitEv isExitEv_output_false b hb
    rcases hcase with ⟨hev, _⟩ | ⟨hev, _, _⟩ <;>
      refine ⟨?_, ?_, fun _ => ?_, ?_⟩ <;>
      rw [hev] <;>
      try simp [List.countP_append, List.countP_cons, isStartedEv, isExitEv, hza, hzb,
        hea, heb]
    · intro x hx
      rcases hx with h1 | h2 | h3
      · exact Or.inl (by simpa using List.all_eq_true.mp ha x h1)
      · subst h2
        exact Or.inr rfl
      · exact Or.inl (by simpa using List.all_eq_true.mp hb x h3)
    · intro x hx
      rcases hx with h1 | h2 | h3 | h4
      · exact Or.inl (by simpa using List.all_eq_true.mp ha x h1)
      · subst h2
        exact Or.inl rfl
      · subst h3
        exact Or.inr rfl
      · exact Or.inl (by simpa using List.all_eq_true.mp hb x h4)

/-- Event discipline of the local path (all schedules, all staging outcomes). -/
theorem localTrace_facts (o : LocalOracle) :
    (localTrace o).countP isStartedEv = 0
  ∧ (localTrace o).countP isExitEv ≤ 1
  ∧ (localDone o = true → (localTrace o).countP isExitEv = 1)
  ∧ (∀ x ∈ localTrace o, isOutput x = true ∨ isExitEv x = true) := by
  cases hc : o.createErr with
  | some e =>
    refine ⟨?_, ?_, fun _ => ?_, ?_⟩ <;>
      simp [localTrace, hc, List.countP_cons, isStartedEv, isExitEv, isOutput]
  | none =>
  cases hw : o.writeErr with
  | some e =>
    refine ⟨?_, ?_, fun _ => ?_, ?_⟩ <;>
      simp [localTrace, hc, hw, List.countP_cons, isStartedEv, isExitEv, isOutput]
  | none =>
  cases hs : o.spawnErr with
  | some e =>
    refine ⟨?_, ?_, fun _ => ?_, ?_⟩ <;>
      simp [localTrace, hc, hw, hs, List.countP_cons, isStartedEv, isExitEv, isOutput]
  | none =>
    have hfacts := runL_facts o o.sched
    have htr : localTrace o = (runL o (initL o) o.sched).2 := by
      simp [localTrace, hc, hw, hs]
    have hdone : localDone o = (runL o (initL o) o.sched).1.mainDone := by
      simp [localDone, hc, hw, hs]
    rw [htr, hdone]
    exact hfacts

/-- Event discipline of the remote path. -/
theorem remoteTrace_facts (h : Host) (o : RemoteOracle) :
    (remoteTrace h o).countP isStartedEv = 0
  ∧ (remoteTrace h o).countP isExitEv = 1
  ∧ (∃ v, (remoteTrace h o).getLast? = some (ExecutionUpdate.exit v))
  ∧ (∀ x ∈ remoteTrace h o, isOutput x = true ∨ isExitEv x = true) := by
  obtain ⟨a, v, ha, hl⟩ := remoteTrace_ends h o
  obtain ⟨f1, f2, f3, f4⟩ := shape_facts (remoteTrace h o) a v hl ha
  exact ⟨f1, f2, ⟨v, f3⟩, f4⟩

/-! ### First-failure characterization (error taxonomy of executor.rs) -/

/-- The diagnostic of the first staging failure on the local path. -/
def localFailure (o : LocalOracle) : Option String :=
  match o.createErr with
  | some e => some ("Failed to create temp file: " ++ e)
  | none =>
  match o.writeErr with
  | some e => some ("Failed to write script: " ++ e)
  | none =>
  match o.spawnErr with
  | some e => some ("Failed to spawn local command: " ++ e)
  | none => none

/-- The diagnostic of the first post-authentication failure on the remote path. -/
def afterAuthFailure (o : RemoteOracle) : Option String :=
  match o.sftpErr with
  | some e => some ("Failed to start SFTP: " ++ e)
  | none =>
  match o.createErr with
  | some e => some ("Failed to create temp file: " ++ e)
  | none =>
  match o.writeErr with
  | some e => some ("Failed to write script: " ++ e)
  | none =>
  match o.channelErr with
  | some e => some ("Failed to open channel: " ++ e)
  | none =>
  match o.execErr with
  | some e => some ("Failed to exec: " ++ e)
  | none => none

/-- The diagnostic of the first failure on the remote path (connection,
handshake, authentication, staging, channel, exec — in control-flow order). -/
def remoteFailure (h : Host) (o : RemoteOracle) : Option String :=
  match o.connectErr with
  | some e => some ("Failed to connect: " ++ e)
  | none =>
  match o.handshakeErr with
  | some e => some ("Handshake failed: " ++ e)
  | none =>
    if o.agentOk || o.keyOk then afterAuthFailure o
    else some (authFailMsg h)

theorem remoteAfterAuth_failure (o : RemoteOracle) (d : String)
    (hf : afterAuthFailure o = some d) :
    ∃ pre, onlyOutput pre = true
      ∧ remoteAfterAuth o = pre ++ [ExecutionUpdate.stderr d, ExecutionUpdate.exit (-1)] := by
  cases hs : o.sftpErr with
  | some e =>
    rw [afterAuthFailure, hs] at hf
    refine ⟨[], rfl, ?_⟩
    simp only [Option.some.injEq] at hf
    simp [remoteAfterAuth, hs, hf]
  | none =>
  cases hc : o.createErr with
  | some e =>
    rw [afterAuthFailure, hs, hc] at hf
    refine ⟨[], rfl, ?_⟩
    simp only [Option.some.injEq] at hf
    simp [remoteAfterAuth, hs, hc, hf]
  | none =>
  cases hw : o.writeErr with
  | some e =>
    rw [afterAuthFailure, hs, hc, hw] at hf
    refine ⟨[], rfl, ?_⟩
    simp only [Option.some.injEq] at hf
    simp [remoteAfterAuth, hs, hc, hw, hf]
  | none =>
  cases hch : o.channelErr with
  | some e =>
    rw [afterAuthFailure, hs, hc, hw, hch] at hf
    refine ⟨[.stdout ("Script uploaded to /tmp/switchboard_" ++ o.uuid ++ ".sh\n")], rfl, ?_⟩
    simp only [Option.some.injEq] at hf
    simp [remoteAfterAuth, hs, hc, hw, hch, hf]
  | none =>
  cases hex : o.execErr with
  | some e =>
    rw [afterAuthFailure, hs, hc, hw, hch, hex] at hf
    refine ⟨[.stdout ("Script uploaded to /tmp/switchboard_" ++ o.uuid ++ ".sh\n")], rfl, ?_⟩
    simp only [Option.some.injEq] at hf
    simp [remoteAfterAuth, hs, hc, hw, hch, hex, hf]
  | none =>
    rw [afterAuthFailure, hs, hc, hw, hch, hex] at hf
    exact absurd hf (by simp)

theorem remoteTrace_failure (h : Host) (o : RemoteOracle) (d : String)
    (hf : remoteFailure h o = some d) :
    ∃ pre, onlyOutput pre = true
      ∧ remoteTrace h o = pre ++ [ExecutionUpdate.stderr d, ExecutionUpdate.exit (-1)] := by
  cases hcn : o.connectErr with
  | some e =>
    rw [remoteFailure, hcn] at hf
    refine ⟨[], rfl, ?_⟩
    simp only [Option.some.injEq] at hf
    simp [remoteTrace, hcn, hf]
  | none =>
  cases hhs : o.handshakeErr with
  | some e =>
    rw [remoteFailure, hcn, hhs] at hf
    refine ⟨[], rfl, ?_⟩
    simp only [Option.some.injEq] at hf
    simp [remoteTrace, hcn, hhs, hf]
  | none =>
  cases hag : o.agentOk with
  | true =>
    rw [remoteFailure, hcn, hhs] at hf
    rw [hag] at hf
    simp only [Bool.true_or, if_true] at hf
    obtain ⟨pre, hpre, hl⟩ := remoteAfterAuth_failure o d hf
    refine ⟨.stdout "✓ Authenticated via SSH agent\n" :: pre, ?_, ?_⟩
    · simpa [onlyOutput, isOutput] using hpre
    · simp [remoteTrace, hcn, hhs, hag, hl]
  | false =>
  cases hkey : o.keyOk with
  | true =>
    rw [remoteFailure, hcn, hhs] at hf
    rw [hag, hkey] at hf
    simp only [Bool.false_or, if_true] at hf
    obtain ⟨pre, hpre, hl⟩ := remoteAfterAuth_failure o d hf
    refine ⟨pre, hpre, ?_⟩
    simp [remoteTrace, hcn, hhs, hag, hkey, hl]
  | false =>
    rw [remoteFailure, hcn, hhs] at hf
    rw [hag, hkey] at hf
    simp only [Bool.false_or, Bool.false_eq_true, if_false, Option.some.injEq] at hf
    refine ⟨[], rfl, ?_⟩
    simp [remoteTrace, hcn, hhs, hag, hkey, hf]

/-! ## Executor fixtures -/

def hostLocal : Host :=
  { id := 2, name := "local", hostname := "127.0.0.1", port := 22,
    username := "", auth := AuthMethod.agent }

def hostRemote : Host :=
  { id := 3, name := "prod db", hostname := "db.example.com", port := 22,
    username := "root", auth := AuthMethod.agent }

/-- A host whose display name is the loopback alias `localhost` while its
hostname is a genuine remote machine. -/
def hostNameLoopback : Host :=
  { id := 9, name := "localhost", hostname := "db.example.com", port := 22,
    username := "root", auth := AuthMethod.agent }

/-- A host with hostname `127.0.0.1` and a non-empty username. -/
def hostLoopbackIp : Host :=
  { id := 5, name := "prod", hostname := "127.0.0.1", port := 22,
    username := "root", auth := AuthMethod.agent }

def remQuiet : RemoteOracle :=
  { connectErr := none, handshakeErr := none, agentOk := false, keyOk := false,
    sftpErr := none, createErr := none, writeErr := none, channelErr := none,
    execErr := none, uuid := "u0", iters := [], exitStatus := none }

def locQuiet : LocalOracle :=
  { createErr := none, writeErr := none, spawnErr := none, outChunks := [],
    errChunks := [], childOutcome := ChildOutcome.exited (some 0), sched := [] }

/-- Schedule racing the readers against the main loop: the child exits, the
main loop observes it first, and only then does the stdout reader run. -/
def locRace : LocalOracle :=
  { createErr := none, writeErr := none, spawnErr := none,
    outChunks := ["hello\n"], errChunks := [],
    childOutcome := ChildOutcome.exited (some 0),
    sched := [Tid.child, Tid.main, Tid.out] }

def oRace : ExecOracle := { loc := locRace, rem := remQuiet }

/-- Schedule in which the kill arrives with an unread chunk still in the pipe. -/
def locKill : LocalOracle :=
  { createErr := none, writeErr := none, spawnErr := none,
    outChunks := ["partial output"], errChunks := [],
    childOutcome := ChildOutcome.exited (some 0),
    sched := [Tid.kill, Tid.main, Tid.out] }

def oKill : ExecOracle := { loc := locKill, rem := remQuiet }

/-- Drain-first oracle for a `hello` run exiting 0. -/
def locDrain : LocalOracle :=
  { createErr := none, writeErr := none, spawnErr := none,
    outChunks := ["hello\n"], errChunks := [],
    childOutcome := ChildOutcome.exited (some 0),
    sched := [Tid.out, Tid.child, Tid.main] }

def oDrain : ExecOracle := { loc := locDrain, rem := remQuiet }

def oConnFail : ExecOracle :=
  { loc := locQuiet, rem := { remQuiet with connectErr := some "connection refused" } }

/-! ## C2 — local/remote routing rule -/

/-- C2 counterexample: a host whose *name* is the loopback alias `localhost`
is, per the claim, routed locally — but the code compares the name only
against `local`, so it goes down the remote-shell path. -/
theorem routing_claim_cex :
    specRoutesLocal hostNameLoopback = true
  ∧ isLocalRoute hostNameLoopback = false := by
  constructor
  · decide
  · decide

/-- C2 (amended): the executor routes locally iff the display name lowercases
to `local`, or the hostname lowercases to `localhost`, or the hostname is
exactly `127.0.0.1` — independent of credentials and username; in particular
hostname `127.0.0.1` always routes locally, and every host the code routes
locally is also loopback per the spec's alias set (the inclusion only fails in
the other direction). -/
theorem routing_rule (h : Host) :
    (isLocalRoute h = true ↔
      (lowercase h.name = "local" ∨ lowercase h.hostname = "localhost"
        ∨ h.hostname = "127.0.0.1"))
  ∧ (h.hostname = "127.0.0.1" → isLocalRoute h = true)
  ∧ (isLocalRoute h = true → specRoutesLocal h = true) := by
  refine ⟨?_, ?_, ?_⟩
  · simp [isLocalRoute, or_assoc]
  · intro hh
    simp [isLocalRoute, hh]
  · intro hl
    have h3 : lowercase h.name = "local" ∨ lowercase h.hostname = "localhost"
        ∨ h.hostname = "127.0.0.1" := by
      simpa [isLocalRoute, or_assoc] using hl
    rcases h3 with h1 | h1 | h1
    · simp [specRoutesLocal, specIsLoopback, h1]
    · simp [specRoutesLocal, specIsLoopback, h1]
    · have h2 : lowercase h.hostname = "127.0.0.1" := by
        rw [h1]
        decide
      simp [specRoutesLocal, specIsLoopback, h2]

/-- Witness for C2: hostname `127.0.0.1` with non-empty username routes local. -/
theorem routing_rule_witness :
    hostLoopbackIp.hostname = "127.0.0.1"
  ∧ hostLoopbackIp.username = "root"
  ∧ isLocalRoute hostLoopbackIp = true :=
  ⟨rfl, rfl, (routing_rule hostLoopbackIp).2.1 rfl⟩

/-! ## C10 — the synchronous error channel is never used -/

/-- C10: `execute` returns `Ok(())` for every command, host and environment
outcome; failures only ever reach the caller through callback events. -/
theorem execute_returns_ok (cmd : Command) (h : Host) (o : ExecOracle) :
    (SshExecutor_execute cmd h o).1 = Except.ok () := rfl

/-! ## C1 — lifecycle event discipline -/

/-- C1 counterexample: the reader threads are never joined, so under the
schedule in which the main loop observes the child's exit before the stdout
reader has drained the pipe, a `Stdout` chunk is delivered after `Exit(0)` —
the `Exit` event is not the last event of the stream. -/
theorem exit_not_last_cex :
    workerTrace cmdA hostLocal oRace
      = [ExecutionUpdate.started 1, ExecutionUpdate.exit 0,
          ExecutionUpdate.stdout "hello\n"]
  ∧ (workerTrace cmdA hostLocal oRace).getLast?
      = some (ExecutionUpdate.stdout "hello\n") := by
  constructor
  · decide
  · decide

/-- C1 (amended): `Started` is always the single first event; at most one
`Exit` is delivered, exactly one whenever the run completes (always, on the
remote path, where `Exit` is also the last event); anything delivered after an
`Exit` is an output chunk from the unjoined reader threads; and under any
schedule in which both readers drain before the main loop observes the child's
exit — in particular for a local command exiting 0 — `Exit(code)` is the last
event, delivered exactly once. -/
theorem executor_event_discipline (cmd : Command) (h : Host) (o : ExecOracle) :
    (workerTrace cmd h o).head? = some (ExecutionUpdate.started cmd.id)
  ∧ (workerTrace cmd h o).countP isStartedEv = 1
  ∧ (workerTrace cmd h o).countP isExitEv ≤ 1
  ∧ (isLocalRoute h = false →
      (workerTrace cmd h o).countP isExitEv = 1
      ∧ ∃ v, (workerTrace cmd h o).getLast? = some (ExecutionUpdate.exit v))
  ∧ (isLocalRoute h = true → localDone o.loc = true →
      (workerTrace cmd h o).countP isExitEv = 1)
  ∧ postExitOnlyOutput (workerTrace cmd h o)
  ∧ (isLocalRoute h = true → o.loc.createErr = none → o.loc.writeErr = none →
      o.loc.spawnErr = none → o.loc.sched = drainSched o.loc →
      workerTrace cmd h o
        = ExecutionUpdate.started cmd.id
            :: (o.loc.outChunks.map ExecutionUpdate.stdout
              ++ o.loc.errChunks.map ExecutionUpdate.stderr
              ++ [ExecutionUpdate.exit (exitValue o.loc.childOutcome)])) := by
  cases hloc : isLocalRoute h with
  | true =>
    have htr : workerTrace cmd h o = ExecutionUpdate.started cmd.id :: localTrace o.loc := by
      simp [workerTrace, SshExecutor_execute, hloc]
    obtain ⟨f1, f2, f3, f4⟩ := localTrace_facts o.loc
    rw [htr]
    refine ⟨rfl, ?_, ?_, ?_, ?_, ?_, ?_⟩
    · simp [List.countP_cons, isStartedEv, f1]
    · simpa [List.countP_cons, isExitEv] using f2
    · intro hfalse
      simp at hfalse
    · intro _ hdone
      simpa [List.countP_cons, isExitEv] using f3 hdone
    · exact postExit_cons _ _ rfl (postExit_of_count (localTrace o.loc) f2 f4)
    · intro _ hce hwe hse hsched
      have htr2 : localTrace o.loc = (runL o.loc (initL o.loc) o.loc.sched).2 := by
        simp [localTrace, hce, hwe, hse]
      rw [htr2, hsched, (runL_drainSched o.loc).1]
  | false =>
    have htr : workerTrace cmd h o = ExecutionUpdate.started cmd.id :: remoteTrace h o.rem := by
      simp [workerTrace, SshExecutor_execute, hloc]
    obtain ⟨f1, f2, f3, f4⟩ := remoteTrace_facts h o.rem
    rw [htr]
    refine ⟨rfl, ?_, ?_, ?_, ?_, ?_, ?_⟩
    · simp [List.countP_cons, isStartedEv, f1]
    · simp [List.countP_cons, isExitEv, f2]
    · intro _
      constructor
      · simp [List.countP_cons, isExitEv, f2]
      · obtain ⟨a, v, ha, hl⟩ := remoteTrace_ends h o.rem
        refine ⟨v, ?_⟩
        rw [hl, ← List.cons_append]
        exact List.getLast?_concat _
    · intro hfalse _
      simp at hfalse
    · refine postExit_cons _ _ rfl (postExit_of_count (remoteTrace h o.rem) ?_ f4)
      omega
    · intro hfalse
      simp at hfalse

/-- Witness for C1 at the drain-first schedule: a local `hello` run exiting 0
delivers `Started`, the output, and a final `Exit(0)`. -/
theorem executor_event_discipline_witness :
    isLocalRoute hostLocal = true
  ∧ locDrain.sched = drainSched locDrain
  ∧ workerTrace cmdA hostLocal oDrain
      = [ExecutionUpdate.started 1, ExecutionUpdate.stdout "hello\n",
          ExecutionUpdate.exit 0] := by
  refine ⟨by decide, by decide, ?_⟩
  have := (executor_event_discipline cmdA hostLocal oDrain).2.2.2.2.2.2
    (by decide) rfl rfl rfl (by decide)
  simpa using this

/-! ## C3 — post-start failures become events, never return values -/

/-- C3: `execute` returns `Ok(())`, and every failure after the worker starts
(staging and spawn failures locally; connection, handshake, authentication,
staging, channel and exec failures remotely) is delivered as a `Stderr`
diagnostic immediately followed by `Exit(-1)`, the final two events of the
stream. -/
theorem failures_as_events (cmd : Command) (h : Host) (o : ExecOracle) :
    (SshExecutor_execute cmd h o).1 = Except.ok ()
  ∧ (∀ d, isLocalRoute h = true → localFailure o.loc = some d →
      workerTrace cmd h o
        = [ExecutionUpdate.started cmd.id, ExecutionUpdate.stderr d,
            ExecutionUpdate.exit (-1)])
  ∧ (∀ d, isLocalRoute h = false → remoteFailure h o.rem = some d →
      ∃ pre, onlyOutput pre = true
        ∧ workerTrace cmd h o
            = ExecutionUpdate.started cmd.id
                :: (pre ++ [ExecutionUpdate.stderr d, ExecutionUpdate.exit (-1)])) := by
  refine ⟨rfl, ?_, ?_⟩
  · intro d hloc hf
    have htr : workerTrace cmd h o = ExecutionUpdate.started cmd.id :: localTrace o.loc := by
      simp [workerTrace, SshExecutor_execute, hloc]
    have hlt : localTrace o.loc = [ExecutionUpdate.stderr d, ExecutionUpdate.exit (-1)] := by
      cases hc : o.loc.createErr with
      | some e =>
        rw [localFailure, hc] at hf
        simp only [Option.some.injEq] at hf
        simp [localTrace, hc, hf]
      | none =>
      cases hw : o.loc.writeErr with
      | some e =>
        rw [localFailure, hc, hw] at hf
        simp only [Option.some.injEq] at hf
        simp [localTrace, hc, hw, hf]
      | none =>
      cases hs : o.loc.spawnErr with
      | some e =>
        rw [localFailure, hc, hw, hs] at hf
        simp only [Option.some.injEq] at hf
        simp [localTrace, hc, hw, hs, hf]
      | none =>
        rw [localFailure, hc, hw, hs] at hf
        exact absurd hf (by simp)
    rw [htr, hlt]
  · intro d hloc hf
    obtain ⟨pre, hpre, hl⟩ := remoteTrace_failure h o.rem d hf
    refine ⟨pre, hpre, ?_⟩
    simp [workerTrace, SshExecutor_execute, hloc, hl]

/-- Witness for C3: a connection failure surfaces as `Started`, the
diagnostic, and `Exit(-1)`, while `execute` still returns `Ok(())`. -/
theorem failures_as_events_witness :
    (SshExecutor_execute cmdA hostRemote oConnFail).1 = Except.ok ()
  ∧ isLocalRoute hostRemote = false
  ∧ remoteFailure hostRemote oConnFail.rem
      = some "Failed to connect: connection refused"
  ∧ ∃ pre, onlyOutput pre = true
      ∧ workerTrace cmdA hostRemote oConnFail
          = ExecutionUpdate.started cmdA.id
              :: (pre ++ [ExecutionUpdate.stderr "Failed to connect: connection refused",
                  ExecutionUpdate.exit (-1)]) := by
  refine ⟨rfl, by decide, by decide, ?_⟩
  exact (failures_as_events cmdA hostRemote oConnFail).2.2
    "Failed to connect: connection refused" (by decide) (by decide)

/-! ## C4 — cancellation -/

/-- C4 counterexample: cancellation delivers the acknowledgment and
`Exit(-1)`, but a chunk still unread by the stdout reader thread is delivered
after them. -/
theorem cancellation_not_last_cex :
    workerTrace cmdA hostLocal oKill
      = [ExecutionUpdate.started 1, ExecutionUpdate.stderr killAckMsg,
          ExecutionUpdate.exit (-1), ExecutionUpdate.stdout "partial output"]
  ∧ (workerTrace cmdA hostLocal oKill).getLast?
      = some (ExecutionUpdate.stdout "partial output") := by
  constructor
  · decide
  · decide

/-- C4 (amended): when a run is cancelled before completion, the local path
kills the child and delivers the acknowledgment followed by `Exit(-1)`; the
main loop emits nothing further, but the unjoined reader threads may still
deliver buffered output after `Exit(-1)`.  On the remote path the
acknowledgment, the termination notice and `Exit(-1)` are the final events and
nothing follows them. -/
theorem cancellation_behavior (cmd : Command) (h : Host) (o : ExecOracle) :
    (isLocalRoute h = true → o.loc.createErr = none → o.loc.writeErr = none →
      o.loc.spawnErr = none →
      (runL o.loc (initL o.loc) o.loc.sched).1.killConsumed = true →
      (runL o.loc (initL o.loc) o.loc.sched).1.childKilled = true
      ∧ ∃ a b, onlyOutput a = true ∧ onlyOutput b = true
          ∧ workerTrace cmd h o
              = ExecutionUpdate.started cmd.id
                  :: (a ++ ExecutionUpdate.stderr killAckMsg
                    :: ExecutionUpdate.exit (-1) :: b))
  ∧ (isLocalRoute h = false → o.rem.connectErr = none → o.rem.handshakeErr = none →
      (o.rem.agentOk = true ∨ o.rem.keyOk = true) → o.rem.sftpErr = none →
      o.rem.createErr = none → o.rem.writeErr = none → o.rem.channelErr = none →
      o.rem.execErr = none →
      ∀ pre it rest, o.rem.iters = pre ++ it :: rest →
        (∀ j ∈ pre, j.kill = false ∧ j.eof = false) → it.kill = true →
        ∃ a, onlyOutput a = true
          ∧ workerTrace cmd h o
              = ExecutionUpdate.started cmd.id
                  :: (a ++ [ExecutionUpdate.stderr killAckMsg,
                      ExecutionUpdate.stderr terminatedMsg,
                      ExecutionUpdate.exit (-1)])) := by
  constructor
  · intro hloc hce hwe hse hkc
    rcases runL_struct o.loc o.loc.sched (initL o.loc) rfl rfl with
      ⟨_, h2, _⟩ | ⟨a, b, ha, hb, _, hcase⟩
    · rw [hkc] at h2
      exact absurd h2 (by simp)
    · rcases hcase with ⟨_, hkc2⟩ | ⟨hev, _, hck⟩
      · rw [hkc] at hkc2
        exact absurd hkc2 (by simp)
      · refine ⟨hck, a, b, ha, hb, ?_⟩
        have htr : workerTrace cmd h o
            = ExecutionUpdate.started cmd.id :: localTrace o.loc := by
          simp [workerTrace, SshExecutor_execute, hloc]
        have htr2 : localTrace o.loc = (runL o.loc (initL o.loc) o.loc.sched).2 := by
          simp [localTrace, hce, hwe, hse]
        rw [htr, htr2, hev]
  · intro hloc hcn hhs hauth hs hc hw hch hex pre it rest hiters hpre hk
    obtain ⟨a, ha, hl⟩ := remoteTrace_kill h o.rem hcn hhs hauth hs hc hw hch hex
      pre it rest hiters hpre hk
    refine ⟨a, ha, ?_⟩
    simp [workerTrace, SshExecutor_execute, hloc, hl]

/-- Witness for C4: under the kill-first schedule the child is killed and the
acknowledgment plus `Exit(-1)` are delivered. -/
theorem cancellation_behavior_witness :
    isLocalRoute hostLocal = true
  ∧ (runL oKill.loc (initL oKill.loc) oKill.loc.sched).1.killConsumed = true
  ∧ (runL oKill.loc (initL oKill.loc) oKill.loc.sched).1.childKilled = true := by
  refine ⟨by decide, by decide, ?_⟩
  exact ((cancellation_behavior cmdA hostLocal oKill).1 (by decide) rfl rfl rfl
    (by decide)).1

/-! ## Orchestrator (orchestration.rs `orchestrate_execution`)

The shell command line is modelled over lists of characters so quoting and
escaping are exact; the single-quote character is written `Char.ofNat 39` and
the backslash `Char.ofNat 92`. -/

def chars (s : String) : List Char := s.data

/-- The single-quote character. -/
def qc : Char := Char.ofNat 39

/-- The backslash character. -/
def bslash : Char := Char.ofNat 92

/-- Rust `val.replace(quote, quote backslash quote quote)` on one character:
a quote becomes the four characters quote-backslash-quote-quote. -/
def escChar (c : Char) : List Char := if c = qc then [qc, bslash, qc, qc] else [c]

/-- Single-quote escaping of a whole string (orchestration.rs line 24 and 50). -/
def escape : List Char → List Char
  | [] => []
  | c :: cs => escChar c ++ escape cs

def quoteFree (l : List Char) : Bool := l.all (fun c => c != qc)

/-- `HashMap::insert` as key-unique association update. -/
def insertEnv (m : List (String × String)) (k v : String) : List (String × String) :=
  m.filter (fun p => p.1 != k) ++ [(k, v)]

/-- orchestration.rs line 14: the log path derived from the execution id. -/
def logFileOf (execId : String) : String := "/tmp/switchboard_" ++ execId ++ ".log"

/-- orchestration.rs line 15: the staged script path. -/
def scriptPath (execId : String) : List Char :=
  chars "/tmp/switchboard_" ++ chars execId ++ chars ".sh"

/-- orchestration.rs lines 17-18: the two implicit variables injected into the
effective environment. -/
def effectiveEnv (execId : String) (env : List (String × String)) :
    List (String × String) :=
  insertEnv (insertEnv env "SWITCHBOARD_RUN" execId) "SWITCHBOARD_LOG" (logFileOf execId)

/-- orchestration.rs lines 23-26: one `export KEY='escaped value'; ` piece. -/
def exportPiece (p : String × String) : List Char :=
  chars "export " ++ chars p.1 ++ chars "=" ++ [qc] ++ escape (chars p.2) ++ [qc]
    ++ chars "; "

def catList : List (List Char) → List Char
  | [] => []
  | l :: ls => l ++ catList ls

def envExports (m : List (String × String)) : List Char := catList (m.map exportPiece)

/-- orchestration.rs line 28: working directory defaulting to `/`. -/
def workDirOf (cmd : Command) : String := cmd.working_directory.getD "/"

/-- orchestration.rs lines 29-32: exports, `chmod`, `cd`, login-shell
invocation, and the `;`-chained removal of the staged script. -/
def innerCmd (execId : String) (cmd : Command) (env : List (String × String)) :
    List Char :=
  envExports (effectiveEnv execId env)
    ++ chars "chmod +x " ++ scriptPath execId
    ++ chars " && cd " ++ chars (workDirOf cmd)
    ++ chars " && bash -l " ++ scriptPath execId
    ++ chars "; rm -f " ++ scriptPath execId

/-- orchestration.rs line 42: the detached background command line. -/
def bgCmd (execId : String) (cmd : Command) (env : List (String × String)) :
    List Char :=
  chars "nohup bash -c " ++ [qc] ++ innerCmd execId cmd env ++ [qc]
    ++ chars " > " ++ chars (logFileOf execId) ++ chars " 2>&1 &"

/-- orchestration.rs lines 50-51: the foreground command line (inner command
re-escaped, piped through `tee` into the log). -/
def fgCmd (execId : String) (cmd : Command) (env : List (String × String)) :
    List Char :=
  chars "/bin/bash -c " ++ [qc] ++ escape (innerCmd execId cmd env) ++ [qc]
    ++ chars " | tee " ++ chars (logFileOf execId)

/-- `a` occurs contiguously inside `l`. -/
def SegIn (a l : List Char) : Prop := ∃ s t, s ++ (a ++ t) = l

theorem SegIn.widen {a m : List Char} (h : SegIn a m) (pre post : List Char) :
    SegIn a (pre ++ (m ++ post)) := by
  obtain ⟨s, t, rfl⟩ := h
  exact ⟨pre ++ s, t ++ post, by simp [List.append_assoc]⟩

theorem segIn_catList {x : List Char} {ls : List (List Char)} (h : x ∈ ls) :
    SegIn x (catList ls) := by
  induction ls with
  | nil => cases h
  | cons l ls ih =>
    rcases List.mem_cons.mp h with h1 | h2
    · subst h1
      exact ⟨[], catList ls, rfl⟩
    · obtain ⟨s, t, hst⟩ := ih h2
      exact ⟨l ++ s, t, by simp [catList, hst.symm, List.append_assoc]⟩

theorem escape_append (a b : List Char) : escape (a ++ b) = escape a ++ escape b := by
  induction a with
  | nil => rfl
  | cons c cs ih => simp [escape, ih, List.append_assoc]

theorem escape_quoteFree (l : List Char) (h : quoteFree l = true) : escape l = l := by
  induction l with
  | nil => rfl
  | cons c cs ih =>
    rw [quoteFree, List.all_cons] at h
    have hc : (c != qc) = true := (Bool.and_eq_true_iff.mp h).1
    have hcs : quoteFree cs = true := (Bool.and_eq_true_iff.mp h).2
    have hcne : ¬ c = qc := by simpa using hc
    simp [escape, escChar, hcne, ih hcs]

theorem quoteFree_append (a b : List Char) :
    quoteFree (a ++ b) = (quoteFree a && quoteFree b) := by
  simp [quoteFree, List.all_append]

theorem SegIn.trans {a m l : List Char} (h1 : SegIn a m) (h2 : SegIn m l) :
    SegIn a l := by
  obtain ⟨s1, t1, hm⟩ := h1
  obtain ⟨s2, t2, hl⟩ := h2
  refine ⟨s2 ++ s1, t1 ++ t2, ?_⟩
  rw [← hl, ← hm]
  simp [List.append_assoc]

/-- C9: the orchestrated command line exports every effective environment
variable with its value single-quote-escaped, carries the two implicit
variables, changes into the working directory (default `/`), invokes the
staged script under a login shell (`bash -l`), and chains the script removal
with `;` — with the inner command embedded verbatim in the background line and
re-escaped in the foreground line, where the `cd` and `bash -l ...; rm -f ...`
segments survive verbatim. -/
theorem orchestrated_command_line (execId : String) (cmd : Command)
    (env : List (String × String))
    (hq : quoteFree (chars execId) = true)
    (hw : quoteFree (chars (workDirOf cmd)) = true) :
    (("SWITCHBOARD_RUN", execId) ∈ effectiveEnv execId env
      ∧ ("SWITCHBOARD_LOG", logFileOf execId) ∈ effectiveEnv execId env)
  ∧ (∀ p ∈ effectiveEnv execId env,
      SegIn (exportPiece p) (innerCmd execId cmd env))
  ∧ SegIn (chars " && cd " ++ (chars (workDirOf cmd) ++ chars " && bash -l "))
      (innerCmd execId cmd env)
  ∧ (cmd.working_directory = none → workDirOf cmd = "/")
  ∧ SegIn (chars "bash -l "
        ++ (scriptPath execId ++ (chars "; rm -f " ++ scriptPath execId)))
      (innerCmd execId cmd env)
  ∧ SegIn (innerCmd execId cmd env) (bgCmd execId cmd env)
  ∧ SegIn (escape (innerCmd execId cmd env)) (fgCmd execId cmd env)
  ∧ SegIn (chars "bash -l "
        ++ (scriptPath execId ++ (chars "; rm -f " ++ scriptPath execId)))
      (bgCmd execId cmd env)
  ∧ SegIn (chars "bash -l "
        ++ (scriptPath execId ++ (chars "; rm -f " ++ scriptPath execId)))
      (fgCmd execId cmd env)
  ∧ SegIn (chars " && cd " ++ (chars (workDirOf cmd) ++ chars " && bash -l "))
      (fgCmd execId cmd env) := by
  have hbl : chars " && bash -l " = chars " && " ++ chars "bash -l " := by decide
  have hsplit : innerCmd execId cmd env
      = (envExports (effectiveEnv execId env) ++ chars "chmod +x "
          ++ scriptPath execId ++ chars " && cd " ++ chars (workDirOf cmd)
          ++ chars " && ")
        ++ (chars "bash -l "
          ++ (scriptPath execId ++ (chars "; rm -f " ++ scriptPath execId))) := by
    rw [innerCmd, hbl]
    simp [List.append_assoc]
  have hsplit2 : innerCmd execId cmd env
      = (envExports (effectiveEnv execId env) ++ chars "chmod +x "
          ++ scriptPath execId)
        ++ ((chars " && cd " ++ (chars (workDirOf cmd) ++ chars " && bash -l "))
          ++ (scriptPath execId ++ (chars "; rm -f " ++ scriptPath execId))) := by
    rw [innerCmd]
    simp [List.append_assoc]
  have hqS : quoteFree (scriptPath execId) = true := by
    rw [scriptPath, quoteFree_append, quoteFree_append]
    have h1 : quoteFree (chars "/tmp/switchboard_") = true := by decide
    have h3 : quoteFree (chars ".sh") = true := by decide
    rw [h1, h3, hq]
    rfl
  have hqChain : quoteFree (chars "bash -l "
      ++ (scriptPath execId ++ (chars "; rm -f " ++ scriptPath execId))) = true := by
    rw [quoteFree_append, quoteFree_append, quoteFree_append]
    have h1 : quoteFree (chars "bash -l ") = true := by decide
    have h2 : quoteFree (chars "; rm -f ") = true := by decide
    rw [h1, h2, hqS]
    rfl
  have hqCd : quoteFree (chars " && cd "
      ++ (chars (workDirOf cmd) ++ chars " && bash -l ")) = true := by
    rw [quoteFree_append, quoteFree_append]
    have h1 : quoteFree (chars " && cd ") = true := by decide
    have h2 : quoteFree (chars " && bash -l ") = true := by decide
    rw [h1, h2, hw]
    rfl
  have hInBg : SegIn (innerCmd execId cmd env) (bgCmd execId cmd env) := by
    refine ⟨chars "nohup bash -c " ++ [qc],
      [qc] ++ (chars " > " ++ (chars (logFileOf execId) ++ chars " 2>&1 &")), ?_⟩
    rw [bgCmd]
    simp [List.append_assoc]
  have hEscInFg : SegIn (escape (innerCmd execId cmd env)) (fgCmd execId cmd env) := by
    refine ⟨chars "/bin/bash -c " ++ [qc],
      [qc] ++ (chars " | tee " ++ chars (logFileOf execId)), ?_⟩
    rw [fgCmd]
    simp [List.append_assoc]
  have hChainInner : SegIn (chars "bash -l "
      ++ (scriptPath execId ++ (chars "; rm -f " ++ scriptPath execId)))
      (innerCmd execId cmd env) := by
    refine ⟨envExports (effectiveEnv execId env) ++ chars "chmod +x "
      ++ scriptPath execId ++ chars " && cd " ++ chars (workDirOf cmd)
      ++ chars " && ", [], ?_⟩
    rw [hsplit]
    simp
  have hCdInner : SegIn (chars " && cd "
      ++ (chars (workDirOf cmd) ++ chars " && bash -l "))
      (innerCmd execId cmd env) := by
    refine ⟨envExports (effectiveEnv execId env) ++ chars "chmod +x "
      ++ scriptPath execId,
      scriptPath execId ++ (chars "; rm -f " ++ scriptPath execId), ?_⟩
    rw [hsplit2]
  have e1 : escape (chars "bash -l ") = chars "bash -l " := by decide
  have e2 : escape (chars "; rm -f ") = chars "; rm -f " := by decide
  have e3 : escape (scriptPath execId) = scriptPath execId := escape_quoteFree _ hqS
  have e4 : escape (chars " && cd ") = chars " && cd " := by decide
  have e5 : escape (chars " && bash -l ") = chars " && bash -l " := by decide
  have e6 : escape (chars (workDirOf cmd)) = chars (workDirOf cmd) :=
    escape_quoteFree _ hw
  have hChainEsc : SegIn (chars "bash -l "
      ++ (scriptPath execId ++ (chars "; rm -f " ++ scriptPath execId)))
      (escape (innerCmd execId cmd env)) := by
    refine ⟨escape (envExports (effectiveEnv execId env) ++ chars "chmod +x "
      ++ scriptPath execId ++ chars " && cd " ++ chars (workDirOf cmd)
      ++ chars " && "), [], ?_⟩
    rw [hsplit]
    simp [escape_append, e1, e2, e3, List.append_assoc]
  have hCdEsc : SegIn (chars " && cd "
      ++ (chars (workDirOf cmd) ++ chars " && bash -l "))
      (escape (innerCmd execId cmd env)) := by
    refine ⟨escape (envExports (effectiveEnv execId env) ++ chars "chmod +x "
      ++ scriptPath execId),
      escape (scriptPath execId ++ (chars "; rm -f " ++ scriptPath execId)), ?_⟩
    rw [hsplit2]
    simp [escape_append, e2, e3, e4, e5, e6, List.append_assoc]
  refine ⟨⟨?_, ?_⟩, ?_, hCdInner, ?_, hChainInner, hInBg, hEscInFg,
    hChainInner.trans hInBg, hChainEsc.trans hEscInFg, hCdEsc.trans hEscInFg⟩
  · refine List.mem_append_left _ (List.mem_filter.mpr ⟨?_, ?_⟩)
    · exact List.mem_append_right _ (by simp)
    · show ("SWITCHBOARD_RUN" != "SWITCHBOARD_LOG") = true
      decide
  · exact List.mem_append_right _ (by simp)
  · intro p hp
    have hmem : exportPiece p ∈ (effectiveEnv execId env).map exportPiece :=
      List.mem_map_of_mem exportPiece hp
    obtain ⟨s, t, hst⟩ := segIn_catList hmem
    refine ⟨s, t ++ (chars "chmod +x " ++ (scriptPath execId ++ (chars " && cd "
      ++ (chars (workDirOf cmd) ++ (chars " && bash -l " ++ (scriptPath execId
      ++ (chars "; rm -f " ++ scriptPath execId))))))), ?_⟩
    rw [innerCmd, envExports, ← hst]
    simp [List.append_assoc]
  · intro h
    simp [workDirOf, h]

/-- Witness for C9 at a concrete execution id, command and environment. -/
theorem orchestrated_command_line_witness :
    quoteFree (chars "run1") = true
  ∧ quoteFree (chars (workDirOf cmdA)) = true
  ∧ ("SWITCHBOARD_RUN", "run1") ∈ effectiveEnv "run1" [("FOO", "bar")]
  ∧ SegIn (innerCmd "run1" cmdA [("FOO", "bar")]) (bgCmd "run1" cmdA [("FOO", "bar")]) := by
  refine ⟨by decide, by decide, ?_, ?_⟩
  · exact (orchestrated_command_line "run1" cmdA [("FOO", "bar")]
      (by decide) (by decide)).1.1
  · exact (orchestrated_command_line "run1" cmdA [("FOO", "bar")]
      (by decide) (by decide)).2.2.2.2.2.1
